import Mathlib

/-!
# Verification of the Magentic execution engine

Shallow embedding of the plan validator, DAG layering, dependency-context
assembly, complexity heuristic, fallback planner and the tool-gateway
(circuit breaker, response cache, retry logic) of the Magentic repository,
together with theorems settling the specification claims about them.

Sources embedded:
- `src/src/coordinator/plan.py` / `src/src/meta_coordinator.py`
  (`ExecutionPlan.get_dependency_graph`, `ExecutionPlan.get_execution_layers`)
- `src/src/meta_coordinator.py`
  (`_fix_synthesizer_dependencies`, `_validate_plan_logic`, `_fix_plan_logic`,
   `_create_fallback_plan`)
- `src/src/execution/nodes.py` (`create_agent_node`, dependency-context assembly)
- `src/src/meta_agent_system.py` (`_analyze_query_complexity`)
- `src/docker/mcp-gateway/app/main.py`
  (`CircuitBreaker`, `MCPGateway._get_cache_key` / `_check_cache` / `_set_cache`
   / `execute_tool`)
-/

namespace Magentic

/-! ## Plan data model

`agents` entries in the source are dictionaries `{role, task, can_delegate,
depends_on}`.  After the normalization performed by
`MetaCoordinator.create_execution_plan` (lines 451-468), `depends_on` is a
list of Python ints, which we embed as `List Int`. -/

structure Agent where
  role : String
  task : String
  canDelegate : Bool := false
  dependsOn : List Int := []
deriving Repr, DecidableEq, Inhabited

structure ExecutionPlan where
  description : String
  agents : List Agent
  depth : Nat := 0
deriving Repr, DecidableEq

/-- `ExecutionPlan.get_dependency_graph` (plan.py lines 18-45): for agent `i`
keep only the dependencies `d` with `0 <= d < len(self.agents)` and `d != i`,
as ints.  The scalar/string coercion branches are identities on the already
normalized `List Int` representation.  Result: entry `i` of the list is
`graph[i]`. -/
def getDependencyGraph (p : ExecutionPlan) : List (List Nat) :=
  let n := p.agents.length
  (List.range n).map (fun i =>
    ((p.agents.getD i default).dependsOn.filter
      (fun d => 0 ≤ d ∧ d < (n : Int) ∧ d ≠ (i : Int))).map Int.toNat)

/-- Access `graph[i]` (a Python dict lookup; every `i < n` is present). -/
def graphAt (graph : List (List Nat)) (i : Nat) : List Nat :=
  graph.getD i []

/-- One step of the layer-removal loop of `get_execution_layers`
(plan.py lines 82-86): `remaining.remove(node)` followed by
`for i in remaining: if node in graph.get(i, []): in_degree[i] -= 1`.
Nodes of the current layer are processed sequentially, each seeing the
`remaining` left by the previous one. -/
def removeLayer (graph : List (List Nat)) :
    List Nat → List Nat → (Nat → Nat) → List Nat × (Nat → Nat)
  | [], remaining, inDeg => (remaining, inDeg)
  | node :: rest, remaining, inDeg =>
    let remaining' := remaining.erase node
    let inDeg' := fun i =>
      if i ∈ remaining' ∧ node ∈ graphAt graph i then inDeg i - 1 else inDeg i
    removeLayer graph rest remaining' inDeg'

/-- The `while remaining:` loop of `get_execution_layers` (plan.py lines
70-87), with explicit fuel.  Each productive iteration removes at least one
node, so fuel `n` suffices for the initial call.  The cycle branch is a
`return` out of the whole function in the source, discarding the layers
accumulated so far; we model that early return with `Except`, carrying the
`remaining` set at the moment of detection. -/
def kahnLoop (graph : List (List Nat)) :
    Nat → List Nat → (Nat → Nat) → Except (List Nat) (List (List Nat))
  | 0, _, _ => .ok []
  | fuel + 1, remaining, inDeg =>
    if remaining.isEmpty then .ok []
    else
      let layer := remaining.filter (fun i => inDeg i == 0)
      if layer.isEmpty then
        -- Cycle detected - the source returns the sequential fallback here
        .error remaining
      else
        let st := removeLayer graph layer remaining inDeg
        match kahnLoop graph fuel st.1 st.2 with
        | .ok rest => .ok (layer :: rest)
        | .error rem => .error rem

/-- `ExecutionPlan.get_execution_layers` (plan.py lines 47-88).  The initial
in-degree of `i` is `len(graph[i])` counted with multiplicity (lines 62-64;
the preceding loop over `graph.values()` only re-stores existing zeros).
`remaining` is kept in ascending order (it starts as `range n` and `erase`
preserves order), so the cycle fallback `[[i] for i in sorted(remaining)]`
is `rem.map ([·])`. -/
def getExecutionLayers (p : ExecutionPlan) : List (List Nat) :=
  let graph := getDependencyGraph p
  let n := p.agents.length
  match kahnLoop graph n (List.range n) (fun i => (graphAt graph i).length) with
  | .ok layers => layers
  | .error rem => rem.map (fun i => [i])

/-- The layer soundness property claimed by the spec: every dependency of an
index placed in some layer lies in an earlier layer (`emitted` collects the
indices of all earlier layers). -/
def layersOk (graph : List (List Nat)) : List Nat → List (List Nat) → Bool
  | _, [] => true
  | emitted, layer :: rest =>
    layer.all (fun i => (graphAt graph i).all (fun d => emitted.contains d)) &&
      layersOk graph (emitted ++ layer) rest

/-- Plan used to refute claim C1: agent 0 has no dependencies, agents 1 and 2
depend on each other (a cycle). -/
def exPlanC1 : ExecutionPlan :=
  { description := "cycle behind a root"
    agents :=
      [ { role := "researcher", task := "a" }
      , { role := "analyzer", task := "b", dependsOn := [2] }
      , { role := "analyzer", task := "c", dependsOn := [1] } ] }

/-- A validated diamond-shaped plan: duplicate-free, strictly backward
dependencies. -/
def exPlanC1W : ExecutionPlan :=
  { description := "diamond"
    agents :=
      [ { role := "researcher", task := "a" }
      , { role := "researcher", task := "b", dependsOn := [0] }
      , { role := "analyzer", task := "c", dependsOn := [0] }
      , { role := "synthesizer", task := "d", dependsOn := [1, 2] } ] }

/-! ## Plan validator (meta_coordinator.py lines 530-637)

The source mutates the agent dicts in place while iterating; the roles it
reads are never modified, and the `depends_on` of entry `i` is written only
at step `i`, so the loop is an index-wise map. -/

/-- Body of the loop of `MetaCoordinator._fix_synthesizer_dependencies`
(lines 539-566) for the agent at position `i`.  The int/string coercions of
lines 544-552 are identities on the normalized `List Int` representation. -/
def fixSynthAgent (agents : List Agent) (i : Nat) (a : Agent) : Agent :=
  if a.role ∈ ["synthesizer", "writer"] ∧ i > 0 then
    if a.dependsOn = [] then
      let contentProducers := (List.range i).filter (fun j =>
        (agents.getD j default).role ∉ ["synthesizer", "writer", "critic"])
      if contentProducers ≠ [] then
        { a with dependsOn := contentProducers.map Int.ofNat }
      else a
    else a
  else a

/-- `MetaCoordinator._fix_synthesizer_dependencies` (lines 530-568). -/
def fixSynthesizerDependencies (agents : List Agent) : List Agent :=
  agents.enum.map (fun p => fixSynthAgent agents p.1 p.2)

/-- `MetaCoordinator._validate_plan_logic` (lines 570-610).
Check 1: a synthesizer at a position before the last with no dependencies
fails validation.  Check 2: any self (`dep == i`) or forward (`dep >= i`)
dependency fails validation.  The loops return `False` at the first
violation, which is the same as this conjunction of `all`s. -/
def validatePlanLogic (agents : List Agent) : Bool :=
  (agents.enum.all (fun p =>
    !(p.2.role == "synthesizer" && decide (p.1 < agents.length - 1)
        && p.2.dependsOn.isEmpty))) &&
  (agents.enum.all (fun p => p.2.dependsOn.all (fun d =>
    !(d == (p.1 : Int)) && !(decide (d ≥ (p.1 : Int))))))

/-- The append loop of `MetaCoordinator._fix_plan_logic` (lines 631-635):
each lifted synthesizer is given `depends_on = list(range(len(fixed_agents)))`
at the moment it is appended, so it depends on every agent already placed,
including previously appended synthesizers. -/
def appendSynths (fixed : List Agent) : List Agent → List Agent
  | [] => fixed
  | s :: rest =>
    appendSynths
      (fixed ++ [{ s with dependsOn := (List.range fixed.length).map Int.ofNat }])
      rest

/-- `MetaCoordinator._fix_plan_logic` (lines 612-637): standalone
synthesizers (role `synthesizer`, falsy `depends_on`) are lifted out, the
rest keep their order, and the synthesizers are appended at the end. -/
def fixPlanLogic (agents : List Agent) : List Agent :=
  appendSynths
    (agents.filter (fun a => !(a.role == "synthesizer" && a.dependsOn.isEmpty)))
    (agents.filter (fun a => a.role == "synthesizer" && a.dependsOn.isEmpty))

/-- The validation tail of `MetaCoordinator.create_execution_plan`
(lines 489-501): auto-fix synthesizer dependencies, then validate, and on
failure apply `_fix_plan_logic`.  The result of `_fix_plan_logic` is used
as-is; the source performs no re-validation and no fallback at this point. -/
def processPlanLogic (agents : List Agent) : List Agent :=
  let fixed := fixSynthesizerDependencies agents
  if validatePlanLogic fixed then fixed else fixPlanLogic fixed

/-! ## Fallback plan (meta_coordinator.py lines 639-669) -/

/-- `str.lower()` - character-wise lowercasing (ASCII letters; queries and
markers are ASCII). -/
def strToLower (s : String) : String := String.mk (s.data.map Char.toLower)

/-- `word in query_lower` - substring membership. -/
def strContainsSub (s sub : String) : Bool :=
  decide (sub.data <:+: s.data)

/-- The literal marker list of `_create_fallback_plan` (lines 651-653). -/
def fallbackKeywords : List String :=
  ["current", "latest", "today", "news", "weather", "2024", "2025", "now"]

/-- `needs_web` of `_create_fallback_plan` (lines 651-653). -/
def needsWeb (query : String) : Bool :=
  fallbackKeywords.any (fun w => strContainsSub (strToLower query) w)

/-- `MetaCoordinator._create_fallback_plan` (lines 639-669). -/
def createFallbackPlan (query : String) : ExecutionPlan :=
  if needsWeb query then
    { description := "Fallback plan"
      agents := [ { role := "researcher", task := "Search for current information" }
                , { role := "synthesizer", task := "Create final answer" } ] }
  else
    { description := "Fallback plan"
      agents := [ { role := "analyzer", task := "Answer the question" } ] }

/-- The marker list as claim C9 words it - `current, latest, today, news,
weather, the current year, or now` - with the current year 2026.  This
definition follows the claim, not the source, and exists only to be compared
with `createFallbackPlan`. -/
def fallbackKeywordsClaim : List String :=
  ["current", "latest", "today", "news", "weather", "2026", "now"]

/-- The fallback plan as claim C9 states it (claim-side definition for the
comparison only). -/
def createFallbackPlanClaim (query : String) : ExecutionPlan :=
  if fallbackKeywordsClaim.any (fun w => strContainsSub (strToLower query) w) then
    { description := "Fallback plan"
      agents := [ { role := "researcher", task := "Search for current information" }
                , { role := "synthesizer", task := "Create final answer" } ] }
  else
    { description := "Fallback plan"
      agents := [ { role := "analyzer", task := "Answer the question" } ] }

/-! ## Dependency context assembly (execution/nodes.py lines 53-75)

`agent_outputs` is a dict from agent id to output; the source defensively
checks `dep_output is None`, so we embed the values as `Option String`. -/

/-- The literal placeholder used for empty dependency outputs. -/
def noOutputToken : String := "(no output from previous agent)"

/-- `f"{all_agents[dep_idx]['role']}_{dep_idx}"` (line 59). -/
def agentIdOf (allAgents : List Agent) (i : Nat) : String :=
  (allAgents.getD i default).role ++ "_" ++ toString i

/-- Dict lookup in `state["agent_outputs"]`: `none` when the key is absent. -/
def lookupOutput (outputs : List (String × Option String)) (k : String) :
    Option (Option String) :=
  (outputs.find? (fun e => e.1 == k)).map (fun e => e.2)

/-- The context-gathering loop of `create_agent_node` (lines 54-75).
A dependency whose id is absent from `agent_outputs` only logs a warning
(lines 71-73) and appends nothing to `context_parts`; a present `None` or
whitespace-only output is replaced by `noOutputToken`; other outputs are
stripped.  The parts are joined with `"\n\n"`. -/
def buildDependencyContext (dependsOn : List Nat) (allAgents : List Agent)
    (outputs : List (String × Option String)) : String :=
  let parts := dependsOn.filterMap (fun depIdx =>
    let depId := agentIdOf allAgents depIdx
    match lookupOutput outputs depId with
    | some depOutput =>
      let outputStr :=
        match depOutput with
        | none => noOutputToken
        | some s => if s.trim = "" then noOutputToken else s.trim
      some ("From " ++ depId ++ ":\n" ++ outputStr)
    | none => none)
  String.intercalate "\n\n" parts

/-- The dependency context as claim C7 states it: *every* dependency in
`depends_on` contributes a block, and a missing output contributes the
literal token just like an empty one.  Claim-side definition for the
comparison only. -/
def buildDependencyContextClaim (dependsOn : List Nat) (allAgents : List Agent)
    (outputs : List (String × Option String)) : String :=
  String.intercalate "\n\n" (dependsOn.map (fun depIdx =>
    let depId := agentIdOf allAgents depIdx
    let outputStr :=
      match lookupOutput outputs depId with
      | some (some s) => if s.trim = "" then noOutputToken else s.trim
      | _ => noOutputToken
    "From " ++ depId ++ ":\n" ++ outputStr))

/-! ## Complexity heuristic (meta_agent_system.py lines 609-668) -/

/-- `len(query_lower.split(' and ')) - 1`: the number of non-overlapping
occurrences of `" and "`, scanned left to right (Python `str.split`
consumes each matched separator entirely, hence the `drop 4`). -/
def countSepAnd : List Char → Nat
  | [] => 0
  | c :: rest =>
    if c = ' ' ∧ ['a', 'n', 'd', ' '].isPrefixOf rest then
      countSepAnd (rest.drop 4) + 1
    else countSepAnd rest
termination_by s => s.length
decreasing_by
  · simp only [List.length_drop, List.length_cons]
    omega
  · simp only [List.length_cons]
    omega

/-- `len(query.split())`: the number of maximal whitespace-free runs.
`inWord` records whether the previous character was part of a word. -/
def wordCountAux : Bool → List Char → Nat
  | _, [] => 0
  | inWord, c :: rest =>
    if c.isWhitespace then wordCountAux false rest
    else (if inWord then 0 else 1) + wordCountAux true rest

def wordCount (s : List Char) : Nat := wordCountAux false s

/-- The multi-step marker list (lines 624-626). -/
def multiStepWords : List String :=
  ["plan", "design", "create", "build", "develop", "comprehensive",
   "complete", "detailed", "step-by-step", "workflow", "process",
   "strategy", "roadmap", "architecture", "system"]

/-- The analysis marker list (lines 630-631). -/
def analysisWords : List String :=
  ["compare", "analyze", "evaluate", "assess", "review",
   "investigate", "research", "study", "examine"]

/-- The score accumulation of `_analyze_query_complexity` (lines 618-647).
`sum(2 for w in ws if w in query_lower)` is `2 *` the number of markers
present; the `+1.5` markers make the score a rational (Python float
arithmetic on halves is exact). -/
def complexityScore (query : String) : ℚ :=
  let ql := (strToLower query)
  let s1 : ℚ := ((multiStepWords.filter (fun w => strContainsSub ql w)).length : ℚ) * 2
  let s2 : ℚ :=
    ((analysisWords.filter (fun w => strContainsSub ql w)).length : ℚ) * (3 / 2)
  let s3 : ℚ := if strContainsSub ql " and " then (countSepAnd ql.data : ℚ) else 0
  let s4 : ℚ :=
    if wordCount query.data > 20 then 2
    else if wordCount query.data > 10 then 1 else 0
  let qm := query.data.count '?'
  let s5 : ℚ := if qm > 1 then (qm : ℚ) else 0
  s1 + s2 + s3 + s4 + s5

/-- `self.absolute_max_depth` (meta_agent_system.py line 45). -/
def absoluteMaxDepth : Nat := 5

/-- The score-to-depth mapping of `_analyze_query_complexity`
(lines 650-668). -/
def analyzeQueryComplexity (query : String) : Nat :=
  let score := complexityScore query
  if score ≥ 8 then min 5 absoluteMaxDepth
  else if score ≥ 5 then min 4 absoluteMaxDepth
  else if score ≥ 3 then min 3 absoluteMaxDepth
  else if score ≥ 1 then min 2 absoluteMaxDepth
  else 1

/-! ## Tool gateway (docker/mcp-gateway/app/main.py)

Times are modeled as natural-number seconds; `time.time()` readings are
supplied from outside (`now`, or `times k` for the `k`-th attempt of a
retried call).  JSON objects (tool params and results) are modeled as flat
string-valued association lists; a Python dict's truthiness is emptiness of
the list. -/

/-- Circuit breaker states (main.py lines 74-77). -/
inductive CBState
  | closed
  | opened
  | halfOpen
deriving Repr, DecidableEq, Inhabited

/-- `CircuitBreaker` (main.py lines 108-141). -/
structure CircuitBreaker where
  state : CBState := .closed
  failureCount : Nat := 0
  lastFailureTime : Option Nat := none
  lastSuccessTime : Option Nat := none
deriving Repr, DecidableEq, Inhabited

/-- `Config.CIRCUIT_BREAKER_THRESHOLD` default (main.py line 41). -/
def circuitBreakerThreshold : Nat := 5

/-- `Config.CIRCUIT_BREAKER_TIMEOUT` default (main.py line 42). -/
def circuitBreakerTimeout : Nat := 60

/-- `Config.CACHE_TTL` default (main.py line 44). -/
def cacheTTL : Nat := 300

/-- `Config.MAX_RETRIES` default (main.py line 40). -/
def maxRetries : Nat := 3

/-- `CircuitBreaker.record_success` (lines 116-119). -/
def CircuitBreaker.recordSuccess (cb : CircuitBreaker) (now : Nat) :
    CircuitBreaker :=
  { cb with failureCount := 0, state := .closed, lastSuccessTime := some now }

/-- `CircuitBreaker.record_failure` (lines 121-127). -/
def CircuitBreaker.recordFailure (cb : CircuitBreaker) (now : Nat) :
    CircuitBreaker :=
  let fc := cb.failureCount + 1
  { cb with
    failureCount := fc
    lastFailureTime := some now
    state := if fc ≥ circuitBreakerThreshold then .opened else cb.state }

/-- `CircuitBreaker.can_execute` (lines 129-141).  The OPEN branch mutates
the state to HALF_OPEN when the cooldown has elapsed, so the result carries
the updated breaker. -/
def CircuitBreaker.canExecute (cb : CircuitBreaker) (now : Nat) :
    Bool × CircuitBreaker :=
  match cb.state with
  | .closed => (true, cb)
  | .opened =>
    if now - cb.lastFailureTime.getD 0 > circuitBreakerTimeout then
      (true, { cb with state := .halfOpen })
    else (false, cb)
  | .halfOpen => (true, cb)

/-- Breaker states reachable from the freshly constructed breaker through
its three operations (a `defaultdict(CircuitBreaker)` entry starts at the
default field values). -/
inductive CBReachable : CircuitBreaker → Prop
  | init : CBReachable {}
  | success (now : Nat) {cb : CircuitBreaker} :
      CBReachable cb → CBReachable (cb.recordSuccess now)
  | failure (now : Nat) {cb : CircuitBreaker} :
      CBReachable cb → CBReachable (cb.recordFailure now)
  | gate (now : Nat) {cb : CircuitBreaker} :
      CBReachable cb → CBReachable (cb.canExecute now).2

/-- A JSON object, flattened to string keys and string-rendered values. -/
abbrev JsonObj := List (String × String)

/-- Key order used by `json.dumps(params, sort_keys=True)`. -/
def keyLe (a b : String × String) : Prop := a.1 ≤ b.1

instance : DecidableRel keyLe := fun a b =>
  inferInstanceAs (Decidable (a.1 ≤ b.1))

instance : IsTotal (String × String) keyLe :=
  ⟨fun a b => le_total a.1 b.1⟩

instance : IsTrans (String × String) keyLe :=
  ⟨fun _ _ _ h1 h2 => le_trans h1 h2⟩

/-- Strict key order; canonical sorting of duplicate-free-key objects is
invariant under permutation because it is the unique `keyLt`-sorted
rearrangement. -/
def keyLt (a b : String × String) : Prop := a.1 < b.1

instance : IsAntisymm (String × String) keyLt :=
  ⟨fun _ _ h1 h2 => absurd (lt_trans h1 h2) (lt_irrefl _)⟩

/-- `json.dumps(params, sort_keys=True)`: keys in sorted order. -/
def canonicalParams (params : JsonObj) : JsonObj :=
  List.insertionSort keyLe params

/-- Rendering of the canonical JSON into the key string. -/
def renderParams : JsonObj → String
  | [] => ""
  | (k, v) :: rest => k ++ "=" ++ v ++ ";" ++ renderParams rest

/-- `MCPGateway._get_cache_key` (lines 236-241): a stable hash of
`f"{server}:{tool}:{params_str}"` with `params_str` the key-sorted JSON dump.
The md5 step is dropped (the pre-hash string is already a usable key). -/
def getCacheKey (server tool : String) (params : JsonObj) : String :=
  server ++ ":" ++ tool ++ ":" ++ renderParams (canonicalParams params)

/-- One `_response_cache` entry: `cache[key] = (result, timestamp)`. -/
structure CacheEntry where
  key : String
  result : JsonObj
  storedAt : Nat
deriving Repr, DecidableEq

/-- Python dict assignment `cache[key] = (result, now)`: updates in place if
the key exists (keeping its position), otherwise appends (insertion order). -/
def cacheInsert : List CacheEntry → String → JsonObj → Nat → List CacheEntry
  | [], k, r, t => [⟨k, r, t⟩]
  | e :: rest, k, r, t =>
    if e.key = k then ⟨k, r, t⟩ :: rest else e :: cacheInsert rest k r t

/-- `MCPGateway._check_cache` (lines 243-251): a fresh entry
(`now - stored_at < ttl`) is returned; a stale one is deleted. -/
def checkCache (cache : List CacheEntry) (key : String) (now : Nat) :
    Option JsonObj × List CacheEntry :=
  match cache.find? (fun e => e.key == key) with
  | some e =>
    if now - e.storedAt < cacheTTL then (some e.result, cache)
    else (none, cache.filter (fun e' => !(e'.key == key)))
  | none => (none, cache)

/-- `stored_at` order used by the eviction pass. -/
def tsLe (a b : CacheEntry) : Prop := a.storedAt ≤ b.storedAt

instance : DecidableRel tsLe := fun a b =>
  inferInstanceAs (Decidable (a.storedAt ≤ b.storedAt))

instance : IsTotal CacheEntry tsLe :=
  ⟨fun a b => Nat.le_total a.storedAt b.storedAt⟩

instance : IsTrans CacheEntry tsLe :=
  ⟨fun _ _ _ h1 h2 => Nat.le_trans h1 h2⟩

/-- `sorted(cache.keys(), key=lambda k: cache[k][1])` over the entries. -/
def sortByStoredAt (c : List CacheEntry) : List CacheEntry :=
  List.insertionSort tsLe c

/-- `MCPGateway._set_cache` (lines 253-264): insert, then when the size
exceeds 1000 delete the 100 entries whose keys sort first by `stored_at`
(cache keys are distinct, so the sequence of `del` statements is a filter). -/
def setCache (cache : List CacheEntry) (key : String) (result : JsonObj)
    (now : Nat) : List CacheEntry :=
  let c := cacheInsert cache key result now
  if c.length > 1000 then
    let oldestKeys := ((sortByStoredAt c).take 100).map (fun e => e.key)
    c.filter (fun e => !(oldestKeys.contains e.key))
  else c

/-- `ServerMetrics` (main.py lines 84-105). -/
structure ServerMetrics where
  totalRequests : Nat := 0
  successfulRequests : Nat := 0
  failedRequests : Nat := 0
  totalLatencyMs : Nat := 0
  errorsByType : List (String × Nat) := []
  lastRequestTime : Option Nat := none
  lastError : Option String := none
deriving Repr, DecidableEq, Inhabited

/-- `errors_by_type[kind] += 1` on a `defaultdict(int)`. -/
def bumpError : List (String × Nat) → String → List (String × Nat)
  | [], k => [(k, 1)]
  | (k', v) :: rest, k =>
    if k' = k then (k', v + 1) :: rest else (k', v) :: bumpError rest k

/-- Insert-or-update for the per-server dicts of the gateway. -/
def assocSet {β : Type} : List (String × β) → String → β → List (String × β)
  | [], k, v => [(k, v)]
  | (k', v') :: rest, k, v =>
    if k' = k then (k, v) :: rest else (k', v') :: assocSet rest k v

/-- The gateway state relevant to `execute_tool`: registered server names,
per-server breakers and metrics (`defaultdict`s), and the response cache. -/
structure Gateway where
  servers : List String
  breakers : List (String × CircuitBreaker) := []
  metrics : List (String × ServerMetrics) := []
  responseCache : List CacheEntry := []
deriving Repr, DecidableEq

def Gateway.breakerOf (gw : Gateway) (s : String) : CircuitBreaker :=
  (gw.breakers.lookup s).getD {}

def Gateway.metricsOf (gw : Gateway) (s : String) : ServerMetrics :=
  (gw.metrics.lookup s).getD {}

/-- Outcome of one `client.post(f"/tools/{tool}", ...)` attempt, as seen by
the `try` block of `execute_tool`: a 2xx response with its parsed JSON and
latency, an error status that makes `raise_for_status` raise
`httpx.HTTPStatusError`, an `httpx.TimeoutException`, or any other
exception. -/
inductive BackendOutcome
  | success (result : JsonObj) (latencyMs : Nat)
  | httpError (status : Nat) (body : String)
  | timeout
  | exn (kind : String) (msg : String)
deriving Repr, DecidableEq

/-- Errors surfaced by `execute_tool`: `ValueError` for an unknown server
(mapped to 404 by the endpoint) and `HTTPException(status, detail)`. -/
inductive ExecError
  | valueError (msg : String)
  | httpExc (status : Nat) (detail : String)
deriving Repr, DecidableEq

instance : DecidableEq (Except ExecError JsonObj) := fun a b =>
  match a, b with
  | .ok x, .ok y => decidable_of_iff (x = y) (by simp)
  | .error x, .error y => decidable_of_iff (x = y) (by simp)
  | .ok _, .error _ => isFalse (by simp)
  | .error _, .ok _ => isFalse (by simp)

/-- Result of a (possibly retried) `execute_tool` call: the returned value
or raised error, the gateway state afterwards, and how many backend
round-trips (`client.post` calls) were made. -/
structure ExecResult where
  res : Except ExecError JsonObj
  gw : Gateway
  backendCalls : Nat
deriving Repr, DecidableEq

/-- `MCPGateway.execute_tool` (main.py lines 266-360).  `oracle k` is the
outcome of the `k`-th backend attempt and `times k` the `time.time()`
reading during it (each attempt runs under a fresh `REQUEST_TIMEOUT`
budget).  The steps, in source order: unknown server check; circuit-breaker
gate (whose OPEN branch may flip the state to HALF_OPEN); cache probe when
`use_cache` (with Python truthiness: an empty cached dict is not a hit);
the backend attempt with metric/breaker bookkeeping; on timeout a recursive
retry with `retry_count + 1` while `retry_count < MAX_RETRIES`.

The recursion is driven structurally by `budget`, the number of retries
still permitted; `executeTool` below supplies `budget = maxRetries -
retryCount`, which keeps the two counters aligned so the `budget = 0`
branch inside the `retry_count < MAX_RETRIES` guard is unreachable. -/
def executeToolAux (oracle : Nat → BackendOutcome) (times : Nat → Nat)
    (server tool : String) (params : JsonObj) (useCache : Bool) :
    Nat → Gateway → Nat → ExecResult
  | budget, gw, retryCount =>
    if server ∉ gw.servers then
      ⟨.error (.valueError ("Unknown MCP server: " ++ server)), gw, 0⟩
    else
      let now := times retryCount
      let gate := (gw.breakerOf server).canExecute now
      let gw1 := { gw with breakers := assocSet gw.breakers server gate.2 }
      if !gate.1 then
        ⟨.error (.httpExc 503 ("Server " ++ server ++
          " is temporarily unavailable (circuit breaker open)")), gw1, 0⟩
      else
        let cacheKey := getCacheKey server tool params
        let probe :=
          if useCache then checkCache gw1.responseCache cacheKey now
          else (none, gw1.responseCache)
        let gw2 := { gw1 with responseCache := probe.2 }
        let hit :=
          match probe.1 with
          | some cached => if cached ≠ [] then some cached else none
          | none => none
        match hit with
        | some cached => ⟨.ok cached, gw2, 0⟩
        | none =>
          match oracle retryCount with
          | .success result latency =>
            let m := gw2.metricsOf server
            let m := { m with
              totalRequests := m.totalRequests + 1
              successfulRequests := m.successfulRequests + 1
              totalLatencyMs := m.totalLatencyMs + latency
              lastRequestTime := some now }
            let cb := (gw2.breakerOf server).recordSuccess now
            let gw3 := { gw2 with
              metrics := assocSet gw2.metrics server m
              breakers := assocSet gw2.breakers server cb }
            let gw4 :=
              if useCache then
                { gw3 with
                  responseCache := setCache gw3.responseCache cacheKey result now }
              else gw3
            ⟨.ok result, gw4, 1⟩
          | .httpError status body =>
            let m := gw2.metricsOf server
            let m := { m with
              totalRequests := m.totalRequests + 1
              failedRequests := m.failedRequests + 1
              errorsByType := bumpError m.errorsByType ("HTTP_" ++ toString status)
              lastError := some ("HTTP_" ++ toString status) }
            let cb := (gw2.breakerOf server).recordFailure now
            let gw3 := { gw2 with
              metrics := assocSet gw2.metrics server m
              breakers := assocSet gw2.breakers server cb }
            ⟨.error (.httpExc status ("MCP server error: " ++ body)), gw3, 1⟩
          | .timeout =>
            let m := gw2.metricsOf server
            let m := { m with
              totalRequests := m.totalRequests + 1
              failedRequests := m.failedRequests + 1
              errorsByType := bumpError m.errorsByType "TIMEOUT"
              lastError := some "Timeout" }
            let cb := (gw2.breakerOf server).recordFailure now
            let gw3 := { gw2 with
              metrics := assocSet gw2.metrics server m
              breakers := assocSet gw2.breakers server cb }
            if retryCount < maxRetries then
              match budget with
              | b + 1 =>
                let r := executeToolAux oracle times server tool params useCache
                  b gw3 (retryCount + 1)
                ⟨r.res, r.gw, r.backendCalls + 1⟩
              | 0 => -- unreachable when budget = maxRetries - retryCount
                ⟨.error (.httpExc 504 ("Request timeout for " ++ server ++ "."
                  ++ tool)), gw3, 1⟩
            else
              ⟨.error (.httpExc 504 ("Request timeout for " ++ server ++ "." ++
                tool)), gw3, 1⟩
          | .exn kind msg =>
            let m := gw2.metricsOf server
            let m := { m with
              totalRequests := m.totalRequests + 1
              failedRequests := m.failedRequests + 1
              errorsByType := bumpError m.errorsByType kind
              lastError := some msg }
            let cb := (gw2.breakerOf server).recordFailure now
            let gw3 := { gw2 with
              metrics := assocSet gw2.metrics server m
              breakers := assocSet gw2.breakers server cb }
            ⟨.error (.httpExc 500 msg), gw3, 1⟩

/-- `MCPGateway.execute_tool`, entry point. -/
def executeTool (oracle : Nat → BackendOutcome) (times : Nat → Nat)
    (gw : Gateway) (server tool : String) (params : JsonObj)
    (useCache : Bool) (retryCount : Nat) : ExecResult :=
  executeToolAux oracle times server tool params useCache
    (maxRetries - retryCount) gw retryCount

/-- The gateway state after one timed-out attempt at time `now`: the
breaker entry is re-stored by the gate, the failure is recorded, and the
server's metrics count the timeout.  (Bookkeeping view of the `.timeout`
branch of `executeToolAux`, used to state its unfolding lemmas.) -/
def timeoutStepGw (gw : Gateway) (server : String) (now : Nat) : Gateway :=
  { servers := gw.servers
    breakers := assocSet (assocSet gw.breakers server (gw.breakerOf server))
      server ((gw.breakerOf server).recordFailure now)
    metrics := assocSet gw.metrics server
      { gw.metricsOf server with
        totalRequests := (gw.metricsOf server).totalRequests + 1
        failedRequests := (gw.metricsOf server).failedRequests + 1
        errorsByType := bumpError (gw.metricsOf server).errorsByType "TIMEOUT"
        lastError := some "Timeout" }
    responseCache := gw.responseCache }

/-- Gateway used to refute claim C10: the breaker for `filesystem` is OPEN
with its cooldown elapsed, and the response cache holds a fresh entry for
the probed key. -/
def exGwC10 : Gateway :=
  { servers := ["filesystem"]
    breakers := [("filesystem",
      { state := .opened, failureCount := 5, lastFailureTime := some 0 })]
    responseCache :=
      [⟨getCacheKey "filesystem" "read_file" [], [("cached", "yes")], 80⟩] }

/-- 1001 cache entries with pairwise distinct keys (`i` letters `a`) and
timestamps `0, ..., 1000`, used to exercise the eviction pass. -/
def exBigCache : List CacheEntry :=
  (List.range 1001).map
    (fun i => ⟨String.mk (List.replicate i 'a'), [("v", "1")], i⟩)

/-- A key distinct from every `exBigCache` key. -/
def exBigKey : String := String.mk (List.replicate 1001 'a')

/-! ## Helper lemmas -/

theorem fixSynth_getElem? (agents : List Agent) (i : Nat) :
    (fixSynthesizerDependencies agents)[i]? =
      agents[i]?.map (fixSynthAgent agents i) := by
  unfold fixSynthesizerDependencies
  rw [List.getElem?_map, List.getElem?_enum]
  cases agents[i]? <;> rfl

theorem fixSynthAgent_role (agents : List Agent) (i : Nat) (a : Agent) :
    (fixSynthAgent agents i a).role = a.role := by
  unfold fixSynthAgent
  split
  · split
    · dsimp only
      split <;> rfl
    · rfl
  · rfl

theorem mem_enum_of_getElem? {l : List Agent} {i : Nat} {a : Agent}
    (h : l[i]? = some a) : (i, a) ∈ l.enum := by
  have h2 : l.enum[i]? = some (i, a) := by
    rw [List.getElem?_enum, h]
    rfl
  exact List.getElem?_mem h2

/-! ## C9 - deterministic fallback plan -/

/-- Claim C9 counterexample: the query `"tell me about 2024"` contains
none of the claimed markers (`current, latest, today, news, weather, the
current year 2026, now`), so the claim's fallback is `[analyzer]`; the code
matches its literal marker `"2024"` and produces
`[researcher, synthesizer]`. -/
theorem c9_counterexample :
    (createFallbackPlan "tell me about 2024").agents.map Agent.role =
      ["researcher", "synthesizer"] ∧
    (createFallbackPlanClaim "tell me about 2024").agents.map Agent.role =
      ["analyzer"] ∧
    createFallbackPlan "tell me about 2024" ≠
      createFallbackPlanClaim "tell me about 2024" := by
  refine ⟨by decide, by decide, by decide⟩

/-- C9 (amended): whenever validation yields no valid agents, the
deterministic fallback plan is `[researcher, synthesizer]` if the lowercased
query contains any of the literal markers `current, latest, today, news,
weather, 2024, 2025, now` (the two hardcoded year strings, not the current
year), and `[analyzer]` otherwise. -/
theorem c9_fallback_amended (q : String) :
    (createFallbackPlan q).agents.map Agent.role =
      (if fallbackKeywords.any (fun w => strContainsSub (strToLower q) w)
       then ["researcher", "synthesizer"] else ["analyzer"]) := by
  unfold createFallbackPlan
  rw [show (fallbackKeywords.any fun w => strContainsSub (strToLower q) w) =
    needsWeb q from rfl]
  by_cases h : needsWeb q <;> simp [h]

/-! ## C7 - dependency context assembly -/

/-- Claim C7 counterexample: a dependency whose output is missing from
`agent_outputs` contributes no block at all (the source only logs a
warning), while the claim says it contributes the literal token. -/
theorem c7_counterexample :
    buildDependencyContext [0] [{ role := "researcher", task := "x" }] [] = "" ∧
    buildDependencyContextClaim [0] [{ role := "researcher", task := "x" }] [] =
      "From researcher_0:\n(no output from previous agent)" ∧
    buildDependencyContext [0] [{ role := "researcher", task := "x" }] [] ≠
      buildDependencyContextClaim [0] [{ role := "researcher", task := "x" }] [] := by
  refine ⟨by decide, by decide, by decide⟩

/-- The `context_parts` list built by the loop, as a filter-and-map. -/
theorem buildContext_parts_eq (allAgents : List Agent)
    (outputs : List (String × Option String)) : ∀ deps : List Nat,
    (deps.filterMap (fun depIdx =>
      match lookupOutput outputs (agentIdOf allAgents depIdx) with
      | some depOutput =>
        some ("From " ++ agentIdOf allAgents depIdx ++ ":\n" ++
          (match depOutput with
           | none => noOutputToken
           | some s => if s.trim = "" then noOutputToken else s.trim))
      | none => none)) =
    ((deps.filter
        (fun d => (lookupOutput outputs (agentIdOf allAgents d)).isSome)).map
      (fun d => "From " ++ agentIdOf allAgents d ++ ":\n" ++
        (match lookupOutput outputs (agentIdOf allAgents d) with
         | some (some s) => if s.trim = "" then noOutputToken else s.trim
         | _ => noOutputToken))) := by
  intro deps
  induction deps with
  | nil => rfl
  | cons d rest ih =>
    simp only [List.filterMap_cons, List.filter_cons]
    cases h : lookupOutput outputs (agentIdOf allAgents d) with
    | none => simp [h, ih]
    | some o => cases o <;> simp [h, ih]

/-- C7 (amended): the dependency context concatenates, for each index of
`depends_on` *whose id is present in `agent_outputs`* and in the listed
order, a block `"From <dep_agent_id>:\n<output>"` separated by blank lines;
a present but `None` or whitespace-only output is replaced by the literal
token, and a missing id is skipped entirely. -/
theorem c7_context_amended (dependsOn : List Nat) (allAgents : List Agent)
    (outputs : List (String × Option String)) :
    buildDependencyContext dependsOn allAgents outputs =
      String.intercalate "\n\n"
        ((dependsOn.filter
            (fun d => (lookupOutput outputs (agentIdOf allAgents d)).isSome)).map
          (fun d => "From " ++ agentIdOf allAgents d ++ ":\n" ++
            (match lookupOutput outputs (agentIdOf allAgents d) with
             | some (some s) => if s.trim = "" then noOutputToken else s.trim
             | _ => noOutputToken))) := by
  unfold buildDependencyContext
  exact congrArg (String.intercalate "\n\n") (buildContext_parts_eq allAgents outputs dependsOn)

/-! ## C3 - synthesizer auto-fix -/

/-- Claim C3 counterexample: in the plan `[critic, writer]` the writer at
position 1 has empty `depends_on` and no prior content producer (the critic
is excluded), so the auto-fix leaves it empty and the full validation path
returns the plan unchanged - contradicting the claim that after processing
every synthesizer/writer at a positive position has non-empty
`depends_on`. -/
theorem c3_counterexample :
    processPlanLogic
        [ { role := "critic", task := "c" }, { role := "writer", task := "w" } ] =
      [ { role := "critic", task := "c" }, { role := "writer", task := "w" } ] ∧
    ((processPlanLogic
        [ { role := "critic", task := "c" },
          { role := "writer", task := "w" } ])[1]?.map Agent.dependsOn) =
      some [] := by
  refine ⟨by decide, by decide⟩

/-- C3 (amended): the auto-fix rewrites an empty `depends_on` of a
synthesizer/writer at position `i > 0` to the list of all prior indices
whose role is not in `{synthesizer, writer, critic}` *when that list is
non-empty*, and leaves a non-empty `depends_on` unchanged; consequently a
synthesizer or writer at `i > 0` has non-empty dependencies after the
auto-fix whenever at least one prior agent is a content producer. -/
theorem c3_synth_fix_amended (agents : List Agent) (i : Nat) (a : Agent)
    (ha : agents[i]? = some a) (hi : 0 < i)
    (hrole : a.role = "synthesizer" ∨ a.role = "writer")
    (hprod : ∃ j, j < i ∧ (agents.getD j default).role ∉
      (["synthesizer", "writer", "critic"] : List String)) :
    ∃ b, (fixSynthesizerDependencies agents)[i]? = some b ∧
      b.role = a.role ∧ b.dependsOn ≠ [] ∧
      (a.dependsOn = [] → b.dependsOn =
        ((List.range i).filter (fun j => (agents.getD j default).role ∉
          (["synthesizer", "writer", "critic"] : List String))).map Int.ofNat) ∧
      (a.dependsOn ≠ [] → b.dependsOn = a.dependsOn) := by
  have hne : ((List.range i).filter (fun j => (agents.getD j default).role ∉
      (["synthesizer", "writer", "critic"] : List String))) ≠ [] := by
    obtain ⟨j, hj, hr⟩ := hprod
    intro hnil
    have hmem : j ∈ (List.range i).filter (fun j => (agents.getD j default).role ∉
        (["synthesizer", "writer", "critic"] : List String)) :=
      List.mem_filter.mpr ⟨List.mem_range.mpr hj, by simpa using hr⟩
    rw [hnil] at hmem
    exact List.not_mem_nil j hmem
  refine ⟨fixSynthAgent agents i a,
    by rw [fixSynth_getElem?, ha]; rfl, ?_, ?_, ?_, ?_⟩
  · exact fixSynthAgent_role agents i a
  · unfold fixSynthAgent
    rw [if_pos ⟨by simpa using hrole, hi⟩]
    by_cases hdep : a.dependsOn = []
    · rw [if_pos hdep, if_pos hne]
      simpa using hne
    · rw [if_neg hdep]
      exact hdep
  · intro hdep
    unfold fixSynthAgent
    rw [if_pos ⟨by simpa using hrole, hi⟩, if_pos hdep, if_pos hne]
  · intro hdep
    unfold fixSynthAgent
    rw [if_pos ⟨by simpa using hrole, hi⟩, if_neg hdep]

/-! ## C8 - complexity heuristic -/

theorem countSepAnd_pos_infix (s : List Char) (h : countSepAnd s ≠ 0) :
    [' ', 'a', 'n', 'd', ' '] <:+: s := by
  induction s using countSepAnd.induct with
  | case1 => simp [countSepAnd] at h
  | case2 c rest hp _ =>
    obtain ⟨hc, htail⟩ := hp
    obtain ⟨t, ht⟩ := List.isPrefixOf_iff_prefix.mp htail
    exact ⟨[], t, by simp [hc, ← ht]⟩
  | case3 c rest hp ih =>
    have hc : countSepAnd (c :: rest) = countSepAnd rest := by
      rw [countSepAnd, if_neg hp]
    rw [hc] at h
    exact List.infix_cons (ih h)

theorem countSepAnd_eq_zero (q : String)
    (h : strContainsSub q " and " = false) : countSepAnd q.data = 0 := by
  by_contra hne
  have hinf : [' ', 'a', 'n', 'd', ' '] <:+: q.data := countSepAnd_pos_infix _ hne
  have : strContainsSub q " and " = true := by
    unfold strContainsSub
    exact decide_eq_true hinf
  rw [h] at this
  exact Bool.false_ne_true this

/-- C8 (confirmed): the heuristic's score is 2 per multi-step marker present
in the lowercased query, 1.5 per analysis marker present, plus the number of
`" and "` occurrences (which is 0 when there is none, subsuming the
"when at least one" guard), plus the word-count bonus and the question-mark
count when more than one; the thresholds map the score to a depth in
`{1, ..., 5}`. -/
theorem c8_complexity (q : String) :
    analyzeQueryComplexity q =
      (if complexityScore q ≥ 8 then 5
       else if complexityScore q ≥ 5 then 4
       else if complexityScore q ≥ 3 then 3
       else if complexityScore q ≥ 1 then 2 else 1) ∧
    complexityScore q =
      2 * ((multiStepWords.filter
        (fun w => strContainsSub (strToLower q) w)).length : ℚ) +
      (3 / 2) * ((analysisWords.filter
        (fun w => strContainsSub (strToLower q) w)).length : ℚ) +
      (countSepAnd (strToLower q).data : ℚ) +
      (if wordCount q.data > 20 then 2
       else if wordCount q.data > 10 then 1 else 0) +
      (if q.data.count '?' > 1 then (q.data.count '?' : ℚ) else 0) ∧
    1 ≤ analyzeQueryComplexity q ∧ analyzeQueryComplexity q ≤ 5 := by
  have h1 : analyzeQueryComplexity q =
      (if complexityScore q ≥ 8 then 5
       else if complexityScore q ≥ 5 then 4
       else if complexityScore q ≥ 3 then 3
       else if complexityScore q ≥ 1 then 2 else 1) := by
    unfold analyzeQueryComplexity
    dsimp only
    split_ifs <;> simp [absoluteMaxDepth]
  refine ⟨h1, ?_, ?_, ?_⟩
  · unfold complexityScore
    dsimp only
    by_cases hand : strContainsSub (strToLower q) " and " = true
    · rw [if_pos hand]
      ring
    · rw [if_neg hand]
      rw [countSepAnd_eq_zero (strToLower q) (Bool.not_eq_true _ ▸ hand)]
      push_cast
      ring
  · rw [h1]; split_ifs <;> norm_num
  · rw [h1]; split_ifs <;> norm_num

/-! ## C4 - circuit breaker -/

/-- Reachability invariant: a breaker observed OPEN or HALF_OPEN has
accumulated at least `threshold` failures since its last reset (the only
transition into OPEN is `record_failure` at the threshold, HALF_OPEN is
only entered from OPEN, and only `record_success` lowers the count). -/
theorem cbReachable_threshold {cb : CircuitBreaker} (h : CBReachable cb)
    (hs : cb.state = .opened ∨ cb.state = .halfOpen) :
    circuitBreakerThreshold ≤ cb.failureCount := by
  induction h with
  | init => simp at hs
  | success now _ _ => simp [CircuitBreaker.recordSuccess] at hs
  | failure now hr ih =>
    rename_i cb'
    unfold CircuitBreaker.recordFailure at hs ⊢
    dsimp only at hs ⊢
    by_cases hth : circuitBreakerThreshold ≤ cb'.failureCount + 1
    · exact hth
    · rw [if_neg (by omega)] at hs
      exact le_trans (ih hs) (Nat.le_succ _)
  | gate now hr ih =>
    rename_i cb'
    unfold CircuitBreaker.canExecute at hs ⊢
    revert hs
    match hstate : cb'.state with
    | .closed =>
      intro hs
      dsimp only at hs ⊢
      exact ih hs
    | .opened =>
      intro _
      dsimp only
      split <;> exact ih (Or.inl hstate)
    | .halfOpen =>
      intro _
      dsimp only
      exact ih (Or.inr hstate)

/-- C4 (confirmed): (1) from CLOSED, `record_failure` opens the breaker
exactly when the failure count reaches the threshold; (2) while OPEN and
within the cooldown since `last_failure_time`, `can_execute` refuses and
`execute_tool` returns 503 without touching the backend; (3) once the
cooldown has elapsed, `can_execute` permits the call and the state becomes
HALF_OPEN; (4) `record_success` resets any state to CLOSED with
`failure_count = 0`; (5) on any reachable HALF_OPEN breaker, a single
failure returns it to OPEN with `last_failure_time` set to the failure
time. -/
theorem c4_circuit_breaker :
    (∀ (cb : CircuitBreaker) (now : Nat), cb.state = .closed →
      ((cb.recordFailure now).state = .opened ↔
        circuitBreakerThreshold ≤ cb.failureCount + 1)) ∧
    (∀ (cb : CircuitBreaker) (now : Nat), cb.state = .opened →
      ¬ circuitBreakerTimeout < now - cb.lastFailureTime.getD 0 →
      cb.canExecute now = (false, cb)) ∧
    (∀ (gw : Gateway) (server tool : String) (params : JsonObj)
       (useCache : Bool) (oracle : Nat → BackendOutcome) (times : Nat → Nat),
      server ∈ gw.servers → (gw.breakerOf server).state = .opened →
      ¬ circuitBreakerTimeout <
          times 0 - (gw.breakerOf server).lastFailureTime.getD 0 →
      (executeTool oracle times gw server tool params useCache 0).res =
        .error (.httpExc 503 ("Server " ++ server ++
          " is temporarily unavailable (circuit breaker open)")) ∧
      (executeTool oracle times gw server tool params useCache 0).backendCalls
        = 0) ∧
    (∀ (cb : CircuitBreaker) (now : Nat), cb.state = .opened →
      circuitBreakerTimeout < now - cb.lastFailureTime.getD 0 →
      cb.canExecute now = (true, { cb with state := .halfOpen })) ∧
    (∀ (cb : CircuitBreaker) (now : Nat),
      (cb.recordSuccess now).state = .closed ∧
      (cb.recordSuccess now).failureCount = 0) ∧
    (∀ (cb : CircuitBreaker) (now : Nat), CBReachable cb →
      cb.state = .halfOpen →
      (cb.recordFailure now).state = .opened ∧
      (cb.recordFailure now).lastFailureTime = some now) := by
  refine ⟨?_, ?_, ?_, ?_, ?_, ?_⟩
  · intro cb now _
    unfold CircuitBreaker.recordFailure
    dsimp only
    constructor
    · intro h
      by_contra hth
      rw [if_neg (by omega)] at h
      rename_i hclosed
      rw [hclosed] at h
      exact CBState.noConfusion h
    · intro h
      rw [if_pos (by omega)]
  · intro cb now hopen hcool
    unfold CircuitBreaker.canExecute
    rw [hopen]
    dsimp only
    rw [if_neg (by omega)]
  · intro gw server tool params useCache oracle times hsrv hopen hcool
    have hgate : (gw.breakerOf server).canExecute (times 0) =
        (false, gw.breakerOf server) := by
      unfold CircuitBreaker.canExecute
      rw [hopen]
      dsimp only
      rw [if_neg (by omega)]
    unfold executeTool executeToolAux
    rw [if_neg (by simpa using hsrv)]
    dsimp only
    rw [hgate]
    exact ⟨rfl, rfl⟩
  · intro cb now hopen hcool
    unfold CircuitBreaker.canExecute
    rw [hopen]
    dsimp only
    rw [if_pos (by omega)]
  · intro cb now
    exact ⟨rfl, rfl⟩
  · intro cb now hr hhalf
    have hth := cbReachable_threshold hr (Or.inr hhalf)
    unfold CircuitBreaker.recordFailure
    dsimp only
    rw [if_pos (by omega)]
    exact ⟨rfl, rfl⟩

/-- Witness for `c4_circuit_breaker`, exercising every conjunct at concrete
breakers; the HALF_OPEN breaker is reached by five failures at time 0
followed by a `can_execute` probe at time 61. -/
theorem c4_circuit_breaker_witness :
    (({ failureCount := 4 } : CircuitBreaker).recordFailure 10).state =
      .opened ∧
    (({ state := .opened, failureCount := 5, lastFailureTime := some 0 } :
        CircuitBreaker).canExecute 30) =
      (false, { state := .opened, failureCount := 5,
                lastFailureTime := some 0 }) ∧
    (executeTool (fun _ => .timeout) (fun _ => 30)
      { servers := ["filesystem"]
        breakers := [("filesystem",
          { state := .opened, failureCount := 5, lastFailureTime := some 0 })] }
      "filesystem" "read_file" [] false 0).res =
      .error (.httpExc 503
        "Server filesystem is temporarily unavailable (circuit breaker open)") ∧
    (({ state := .opened, failureCount := 5, lastFailureTime := some 0 } :
        CircuitBreaker).canExecute 61) =
      (true, { state := .halfOpen, failureCount := 5,
               lastFailureTime := some 0 }) ∧
    (({ state := .halfOpen, failureCount := 5, lastFailureTime := some 0 } :
        CircuitBreaker).recordSuccess 99).failureCount = 0 ∧
    (({ state := .halfOpen, failureCount := 5, lastFailureTime := some 0 } :
        CircuitBreaker).recordFailure 99).state = .opened := by
  have h := c4_circuit_breaker
  have hreach : CBReachable
      { state := .halfOpen, failureCount := 5, lastFailureTime := some 0 } := by
    have h5 : CBReachable
        { state := .opened, failureCount := 5, lastFailureTime := some 0 } := by
      have := CBReachable.failure 0 (CBReachable.failure 0 (CBReachable.failure 0
        (CBReachable.failure 0 (CBReachable.failure 0 CBReachable.init))))
      simpa [CircuitBreaker.recordFailure, circuitBreakerThreshold] using this
    have := CBReachable.gate 61 h5
    simpa [CircuitBreaker.canExecute, circuitBreakerTimeout] using this
  refine ⟨?_, ?_, ?_, ?_, ?_, ?_⟩
  · exact ((h.1 { failureCount := 4 } 10 rfl).mpr (by decide))
  · exact h.2.1 _ 30 rfl (by decide)
  · exact (h.2.2.1
      { servers := ["filesystem"]
        breakers := [("filesystem",
          { state := .opened, failureCount := 5, lastFailureTime := some 0 })] }
      "filesystem" "read_file" [] false (fun _ => .timeout)
      (fun _ => 30) (by decide) (by decide) (by decide)).1
  · exact h.2.2.2.1 _ 61 rfl (by decide)
  · exact (h.2.2.2.2.1 _ 99).2
  · exact (h.2.2.2.2.2 _ 99 hreach rfl).1

/-! ## Gateway bookkeeping lemmas -/

theorem lookup_assocSet_self {β : Type} (m : List (String × β)) (k : String)
    (v : β) : (assocSet m k v).lookup k = some v := by
  induction m with
  | nil => simp [assocSet, List.lookup]
  | cons e rest ih =>
    cases e with
    | mk k' v' =>
      by_cases h : k' = k
      · subst h
        unfold assocSet
        rw [if_pos rfl]
        simp [List.lookup]
      · unfold assocSet
        rw [if_neg h]
        rw [List.lookup]
        rw [show (k == k') = false from beq_eq_false_iff_ne.mpr (Ne.symm h)]
        exact ih

theorem lookup_bumpError (m : List (String × Nat)) (k : String) :
    (bumpError m k).lookup k = some ((m.lookup k).getD 0 + 1) := by
  induction m with
  | nil => simp [bumpError, List.lookup]
  | cons e rest ih =>
    cases e with
    | mk k' v' =>
      by_cases h : k' = k
      · subst h
        unfold bumpError
        rw [if_pos rfl]
        simp [List.lookup]
      · unfold bumpError
        rw [if_neg h]
        rw [List.lookup, List.lookup]
        rw [show (k == k') = false from beq_eq_false_iff_ne.mpr (Ne.symm h)]
        exact ih

theorem breakerOf_mkSet (sv : List String) (b : List (String × CircuitBreaker))
    (m : List (String × ServerMetrics)) (c : List CacheEntry) (s : String)
    (cb : CircuitBreaker) :
    (Gateway.mk sv (assocSet b s cb) m c).breakerOf s = cb := by
  unfold Gateway.breakerOf
  dsimp only
  rw [lookup_assocSet_self]
  rfl

theorem metricsOf_mkSet (sv : List String) (b : List (String × CircuitBreaker))
    (m : List (String × ServerMetrics)) (c : List CacheEntry) (s : String)
    (mv : ServerMetrics) :
    (Gateway.mk sv b (assocSet m s mv) c).metricsOf s = mv := by
  unfold Gateway.metricsOf
  dsimp only
  rw [lookup_assocSet_self]
  rfl

theorem canExecute_closed (cb : CircuitBreaker) (now : Nat)
    (h : cb.state = .closed) : cb.canExecute now = (true, cb) := by
  unfold CircuitBreaker.canExecute
  rw [h]

theorem timeoutStepGw_servers (gw : Gateway) (server : String) (now : Nat) :
    (timeoutStepGw gw server now).servers = gw.servers := rfl

theorem timeoutStepGw_breakerOf (gw : Gateway) (server : String) (now : Nat) :
    (timeoutStepGw gw server now).breakerOf server =
      (gw.breakerOf server).recordFailure now :=
  breakerOf_mkSet _ _ _ _ _ _

theorem timeoutStepGw_metricsOf (gw : Gateway) (server : String) (now : Nat) :
    (timeoutStepGw gw server now).metricsOf server =
      { gw.metricsOf server with
        totalRequests := (gw.metricsOf server).totalRequests + 1
        failedRequests := (gw.metricsOf server).failedRequests + 1
        errorsByType := bumpError (gw.metricsOf server).errorsByType "TIMEOUT"
        lastError := some "Timeout" } :=
  metricsOf_mkSet _ _ _ _ _ _

/-! ## C6 - timeout retry and upstream errors -/

/-- Unfolding of one timed-out attempt that still has retries left
(`retry_count < MAX_RETRIES`): the call recurses on the bumped state with
`retry_count + 1`, adding one backend round-trip. -/
theorem executeToolAux_timeout_step (oracle : Nat → BackendOutcome)
    (times : Nat → Nat) (server tool : String) (params : JsonObj)
    (b : Nat) (gw : Gateway) (rc : Nat)
    (hsrv : server ∈ gw.servers)
    (hcb : (gw.breakerOf server).state = .closed)
    (horc : oracle rc = .timeout)
    (hlt : rc < maxRetries) :
    executeToolAux oracle times server tool params false (b + 1) gw rc =
      { res := (executeToolAux oracle times server tool params false b
          (timeoutStepGw gw server (times rc)) (rc + 1)).res
        gw := (executeToolAux oracle times server tool params false b
          (timeoutStepGw gw server (times rc)) (rc + 1)).gw
        backendCalls := (executeToolAux oracle times server tool params false b
          (timeoutStepGw gw server (times rc)) (rc + 1)).backendCalls + 1 } := by
  rw [executeToolAux]
  rw [if_neg (not_not_intro hsrv)]
  dsimp only
  rw [canExecute_closed _ _ hcb]
  dsimp only
  rw [horc]
  dsimp only
  rw [if_pos hlt]
  rw [breakerOf_mkSet]
  rfl

/-- Unfolding of a timed-out attempt with no retries left: 504 surfaces
after this single round-trip. -/
theorem executeToolAux_timeout_last (oracle : Nat → BackendOutcome)
    (times : Nat → Nat) (server tool : String) (params : JsonObj)
    (b : Nat) (gw : Gateway) (rc : Nat)
    (hsrv : server ∈ gw.servers)
    (hcb : (gw.breakerOf server).state = .closed)
    (horc : oracle rc = .timeout)
    (hge : ¬ rc < maxRetries) :
    executeToolAux oracle times server tool params false b gw rc =
      { res := .error (.httpExc 504
          ("Request timeout for " ++ server ++ "." ++ tool))
        gw := timeoutStepGw gw server (times rc)
        backendCalls := 1 } := by
  rw [executeToolAux]
  rw [if_neg (not_not_intro hsrv)]
  dsimp only
  rw [canExecute_closed _ _ hcb]
  dsimp only
  rw [horc]
  dsimp only
  rw [if_neg hge]
  rw [breakerOf_mkSet]
  rfl

/-- Behaviour of the retry loop when every attempt from `rc` on times out
and the CLOSED breaker has enough headroom below the threshold: all
`maxRetries + 1 - rc` attempts are made, 504 surfaces, and each attempt
bumps `errors_by_type["TIMEOUT"]` and the failure count. -/
theorem executeToolAux_timeout (oracle : Nat → BackendOutcome)
    (times : Nat → Nat) (server tool : String) (params : JsonObj) :
    ∀ (b rc : Nat) (gw : Gateway), b = maxRetries - rc → rc ≤ maxRetries →
    server ∈ gw.servers →
    (gw.breakerOf server).state = .closed →
    (gw.breakerOf server).failureCount + (maxRetries - rc) <
      circuitBreakerThreshold →
    (∀ k, rc ≤ k → k ≤ maxRetries → oracle k = .timeout) →
    (executeToolAux oracle times server tool params false b gw rc).res =
      .error (.httpExc 504 ("Request timeout for " ++ server ++ "." ++ tool)) ∧
    (executeToolAux oracle times server tool params false b gw rc).backendCalls
      = maxRetries + 1 - rc ∧
    (((executeToolAux oracle times server tool params false b gw
        rc).gw.breakerOf server).failureCount =
      (gw.breakerOf server).failureCount + (maxRetries + 1 - rc)) ∧
    ((((executeToolAux oracle times server tool params false b gw
        rc).gw.metricsOf server).errorsByType.lookup "TIMEOUT").getD 0 =
      (((gw.metricsOf server).errorsByType.lookup "TIMEOUT").getD 0 +
        (maxRetries + 1 - rc))) := by
  intro b
  induction b with
  | zero =>
    intro rc gw hb hrc hsrv hcb hfc horacle
    rw [executeToolAux_timeout_last oracle times server tool params 0 gw rc
      hsrv hcb (horacle rc (le_refl rc) hrc) (by omega)]
    refine ⟨rfl, by dsimp only; omega, ?_, ?_⟩
    · try dsimp only
      rw [timeoutStepGw_breakerOf]
      unfold CircuitBreaker.recordFailure
      try dsimp only
      omega
    · try dsimp only
      rw [timeoutStepGw_metricsOf]
      try dsimp only
      rw [lookup_bumpError]
      simp only [Option.getD_some]
      omega
  | succ b ih =>
    intro rc gw hb hrc hsrv hcb hfc horacle
    have hlt : rc < maxRetries := by omega
    rw [executeToolAux_timeout_step oracle times server tool params b gw rc
      hsrv hcb (horacle rc (le_refl rc) hrc) hlt]
    have hrec : ((gw.breakerOf server).recordFailure (times rc)).state =
        .closed ∧
        ((gw.breakerOf server).recordFailure (times rc)).failureCount =
          (gw.breakerOf server).failureCount + 1 := by
      unfold CircuitBreaker.recordFailure
      try dsimp only
      rw [if_neg (by omega)]
      exact ⟨hcb, rfl⟩
    have hx := ih (rc + 1) (timeoutStepGw gw server (times rc))
      (by omega) (by omega)
      (by rw [timeoutStepGw_servers]; exact hsrv)
      (by rw [timeoutStepGw_breakerOf]; exact hrec.1)
      (by rw [timeoutStepGw_breakerOf]; omega)
      (fun k hk1 hk2 => horacle k (by omega) hk2)
    refine ⟨hx.1, by dsimp only; rw [hx.2.1]; omega, ?_, ?_⟩
    · try dsimp only
      rw [hx.2.2.1, timeoutStepGw_breakerOf, hrec.2]
      omega
    · try dsimp only
      rw [hx.2.2.2, timeoutStepGw_metricsOf]
      try dsimp only
      rw [lookup_bumpError]
      simp only [Option.getD_some]
      omega

/-- Claim C6 counterexample: with 4 pre-existing failures on a CLOSED
breaker, the first timeout opens the breaker (reaching the threshold 5), and
the retry is refused by the circuit-breaker gate: the call surfaces 503
Unavailable after a single backend round-trip, not 504 after
`MAX_RETRIES` retries, although every attempt timed out. -/
theorem c6_counterexample :
    (executeTool (fun _ => .timeout) (fun k => 1000 + k)
      { servers := ["filesystem"]
        breakers := [("filesystem", { state := .closed, failureCount := 4 })] }
      "filesystem" "read_file" [] false 0).res =
      .error (.httpExc 503
        "Server filesystem is temporarily unavailable (circuit breaker open)") ∧
    (executeTool (fun _ => .timeout) (fun k => 1000 + k)
      { servers := ["filesystem"]
        breakers := [("filesystem", { state := .closed, failureCount := 4 })] }
      "filesystem" "read_file" [] false 0).backendCalls = 1 := by
  refine ⟨by decide, by decide⟩

/-- C6 (amended): (A) when every attempt times out and the CLOSED breaker
has enough headroom that the accumulated failures stay below the threshold
through the retries (`failure_count + MAX_RETRIES < threshold`),
`execute_tool` makes `MAX_RETRIES + 1` attempts with the same parameters,
increments `errors_by_type["TIMEOUT"]` and the breaker failure count once
per attempt, and surfaces 504; if instead the failures open the breaker
mid-sequence, a later retry is refused with 503 (see the counterexample).
(B) an HTTP error status from the backend is never retried: the upstream
status code surfaces after exactly one round-trip. -/
theorem c6_retry_amended :
    (∀ (oracle : Nat → BackendOutcome) (times : Nat → Nat) (gw : Gateway)
       (server tool : String) (params : JsonObj),
      server ∈ gw.servers →
      (gw.breakerOf server).state = .closed →
      (gw.breakerOf server).failureCount + maxRetries <
        circuitBreakerThreshold →
      (∀ k, k ≤ maxRetries → oracle k = .timeout) →
      (executeTool oracle times gw server tool params false 0).res =
        .error (.httpExc 504
          ("Request timeout for " ++ server ++ "." ++ tool)) ∧
      (executeTool oracle times gw server tool params false 0).backendCalls =
        maxRetries + 1 ∧
      (((executeTool oracle times gw server tool params false
          0).gw.breakerOf server).failureCount =
        (gw.breakerOf server).failureCount + (maxRetries + 1)) ∧
      ((((executeTool oracle times gw server tool params false
          0).gw.metricsOf server).errorsByType.lookup "TIMEOUT").getD 0 =
        ((gw.metricsOf server).errorsByType.lookup "TIMEOUT").getD 0 +
          (maxRetries + 1))) ∧
    (∀ (oracle : Nat → BackendOutcome) (times : Nat → Nat) (gw : Gateway)
       (server tool : String) (params : JsonObj) (status : Nat) (body : String),
      server ∈ gw.servers →
      (gw.breakerOf server).state = .closed →
      oracle 0 = .httpError status body →
      (executeTool oracle times gw server tool params false 0).res =
        .error (.httpExc status ("MCP server error: " ++ body)) ∧
      (executeTool oracle times gw server tool params false 0).backendCalls
        = 1) := by
  constructor
  · intro oracle times gw server tool params hsrv hcb hfc horacle
    have hx := executeToolAux_timeout oracle times server tool params
      maxRetries 0 gw rfl (by omega) hsrv hcb (by omega)
      (fun k _ hk2 => horacle k hk2)
    exact ⟨hx.1, hx.2.1, hx.2.2.1, hx.2.2.2⟩
  · intro oracle times gw server tool params status body hsrv hcb horc
    unfold executeTool executeToolAux
    rw [if_neg (not_not_intro hsrv)]
    dsimp only
    rw [canExecute_closed _ _ hcb]
    dsimp only
    rw [horc]
    exact ⟨rfl, rfl⟩

/-- Witness for `c6_retry_amended` on a fresh gateway: four timed-out
attempts then 504, and a one-shot upstream 500. -/
theorem c6_retry_amended_witness :
    ((executeTool (fun _ => .timeout) (fun k => k)
        { servers := ["filesystem"] } "filesystem" "read_file" [] false 0).res =
      .error (.httpExc 504
        ("Request timeout for " ++ "filesystem" ++ "." ++ "read_file")) ∧
     (executeTool (fun _ => .timeout) (fun k => k)
        { servers := ["filesystem"] } "filesystem" "read_file" []
        false 0).backendCalls = maxRetries + 1) ∧
    ((executeTool (fun _ => .httpError 502 "bad gateway") (fun k => k)
        { servers := ["websearch"] } "websearch" "search" [] false 0).res =
      .error (.httpExc 502 ("MCP server error: " ++ "bad gateway")) ∧
     (executeTool (fun _ => .httpError 502 "bad gateway") (fun k => k)
        { servers := ["websearch"] } "websearch" "search" []
        false 0).backendCalls = 1) := by
  constructor
  · have hx := (c6_retry_amended.1 (fun _ => .timeout) (fun k => k)
      { servers := ["filesystem"] } "filesystem" "read_file" []
      (by decide) (by decide) (by decide) (fun k _ => rfl))
    exact ⟨hx.1, hx.2.1⟩
  · exact c6_retry_amended.2 (fun _ => .httpError 502 "bad gateway")
      (fun k => k) { servers := ["websearch"] } "websearch" "search" []
      502 "bad gateway" (by decide) (by decide) rfl

/-! ## C10 - cache-hit frame effects -/

theorem checkCache_hit {cache : List CacheEntry} {key : String} {now : Nat}
    {r : JsonObj} (h : (checkCache cache key now).1 = some r) :
    (checkCache cache key now).2 = cache := by
  unfold checkCache at h ⊢
  cases hf : cache.find? (fun e => e.key == key) with
  | none => rfl
  | some e =>
    rw [hf] at h
    dsimp only at h ⊢
    by_cases hfresh : now - e.storedAt < cacheTTL
    · rw [if_pos hfresh]
    · rw [if_neg hfresh] at h
      simp at h

theorem canExecute_preserves (cb : CircuitBreaker) (now : Nat) :
    ((cb.canExecute now).2).failureCount = cb.failureCount ∧
    ((cb.canExecute now).2).lastFailureTime = cb.lastFailureTime := by
  unfold CircuitBreaker.canExecute
  cases cb.state <;> dsimp only
  · exact ⟨rfl, rfl⟩
  · split <;> exact ⟨rfl, rfl⟩
  · exact ⟨rfl, rfl⟩

/-- Claim C10 counterexample: a call served from the cache can still change
the circuit-breaker state - the `can_execute` gate, which runs *before* the
cache probe, flips an OPEN breaker whose cooldown has elapsed to HALF_OPEN
even though the backend is never contacted. -/
theorem c10_counterexample :
    (executeTool (fun _ => .exn "X" "unused") (fun _ => 100) exGwC10
      "filesystem" "read_file" [] true 0).res = .ok [("cached", "yes")] ∧
    (executeTool (fun _ => .exn "X" "unused") (fun _ => 100) exGwC10
      "filesystem" "read_file" [] true 0).backendCalls = 0 ∧
    (exGwC10.breakerOf "filesystem").state = .opened ∧
    ((executeTool (fun _ => .exn "X" "unused") (fun _ => 100) exGwC10
      "filesystem" "read_file" [] true 0).gw.breakerOf "filesystem").state =
      .halfOpen := by
  refine ⟨by decide, by decide, by decide, by decide⟩

/-- C10 (amended): a call served from the response cache returns the stored
result with no backend round-trip and leaves the metrics, the response
cache, and the breaker's `failure_count` and `last_failure_time` unchanged -
but the breakers map is re-stored with the output of the `can_execute` gate,
which may have flipped an expired OPEN breaker to HALF_OPEN before the cache
was consulted. -/
theorem c10_frame_amended (oracle : Nat → BackendOutcome) (times : Nat → Nat)
    (gw : Gateway) (server tool : String) (params : JsonObj) (r : JsonObj)
    (hsrv : server ∈ gw.servers)
    (hgate : ((gw.breakerOf server).canExecute (times 0)).1 = true)
    (hhit : (checkCache gw.responseCache (getCacheKey server tool params)
      (times 0)).1 = some r)
    (hr : r ≠ []) :
    (executeTool oracle times gw server tool params true 0).res = .ok r ∧
    (executeTool oracle times gw server tool params true 0).backendCalls
      = 0 ∧
    (executeTool oracle times gw server tool params true 0).gw.metrics =
      gw.metrics ∧
    (executeTool oracle times gw server tool params true 0).gw.responseCache
      = gw.responseCache ∧
    (executeTool oracle times gw server tool params true 0).gw.breakers =
      assocSet gw.breakers server
        ((gw.breakerOf server).canExecute (times 0)).2 ∧
    (((executeTool oracle times gw server tool params true
        0).gw.breakerOf server).failureCount =
      (gw.breakerOf server).failureCount) ∧
    (((executeTool oracle times gw server tool params true
        0).gw.breakerOf server).lastFailureTime =
      (gw.breakerOf server).lastFailureTime) := by
  unfold executeTool executeToolAux
  rw [if_neg (not_not_intro hsrv)]
  dsimp only
  rw [hgate]
  simp only [Bool.not_true, Bool.false_eq_true, if_false, if_true]
  rw [hhit]
  try dsimp only
  rw [if_pos hr]
  try dsimp only
  refine ⟨rfl, rfl, rfl, checkCache_hit hhit, rfl, ?_, ?_⟩
  · rw [breakerOf_mkSet]
    exact (canExecute_preserves _ _).1
  · rw [breakerOf_mkSet]
    exact (canExecute_preserves _ _).2

/-- Witness for `c10_frame_amended` on a CLOSED breaker with a fresh cache
entry. -/
theorem c10_frame_amended_witness :
    "filesystem" ∈ exGwC10.servers ∧
    ((exGwC10.breakerOf "filesystem").canExecute 100).1 = true ∧
    (checkCache exGwC10.responseCache
      (getCacheKey "filesystem" "read_file" []) 100).1 =
      some [("cached", "yes")] ∧
    ([("cached", "yes")] : JsonObj) ≠ [] ∧
    (executeTool (fun _ => .exn "X" "unused") (fun _ => 100) exGwC10
      "filesystem" "read_file" [] true 0).gw.metrics = exGwC10.metrics := by
  refine ⟨by decide, by decide, by decide, by decide, ?_⟩
  exact (c10_frame_amended (fun _ => .exn "X" "unused") (fun _ => 100)
    exGwC10 "filesystem" "read_file" [] [("cached", "yes")]
    (by decide) (by decide) (by decide) (by decide)).2.2.1

/-! ## C5 - response cache -/

theorem sorted_keyLt {l : JsonObj} (h : l.Sorted keyLe)
    (hnd : (l.map Prod.fst).Nodup) : l.Sorted keyLt := by
  have hne : l.Pairwise (fun a b : String × String => a.1 ≠ b.1) :=
    List.pairwise_map.mp hnd
  exact (h.and hne).imp (fun hab => lt_of_le_of_ne hab.1 hab.2)

theorem canonicalParams_perm (p1 p2 : JsonObj) (hperm : p2.Perm p1)
    (hnd : (p1.map Prod.fst).Nodup) :
    canonicalParams p2 = canonicalParams p1 := by
  unfold canonicalParams
  have hnd2 : (p2.map Prod.fst).Nodup := ((hperm.map Prod.fst).nodup_iff).mpr hnd
  have hndS1 : ((List.insertionSort keyLe p1).map Prod.fst).Nodup :=
    (((List.perm_insertionSort keyLe p1).map Prod.fst).nodup_iff).mpr hnd
  have hndS2 : ((List.insertionSort keyLe p2).map Prod.fst).Nodup :=
    (((List.perm_insertionSort keyLe p2).map Prod.fst).nodup_iff).mpr hnd2
  have hs2 : (List.insertionSort keyLe p2).Sorted keyLt :=
    sorted_keyLt (List.sorted_insertionSort keyLe p2) hndS2
  have hs1 : (List.insertionSort keyLe p1).Sorted keyLt :=
    sorted_keyLt (List.sorted_insertionSort keyLe p1) hndS1
  exact List.eq_of_perm_of_sorted
    (((List.perm_insertionSort keyLe p2).trans hperm).trans
      (List.perm_insertionSort keyLe p1).symm) hs2 hs1

theorem getCacheKey_perm (server tool : String) (p1 p2 : JsonObj)
    (hperm : p2.Perm p1) (hnd : (p1.map Prod.fst).Nodup) :
    getCacheKey server tool p2 = getCacheKey server tool p1 := by
  unfold getCacheKey
  rw [canonicalParams_perm p1 p2 hperm hnd]

theorem checkCache_miss (cache : List CacheEntry) (k : String) (now : Nat)
    (hmiss : ∀ e ∈ cache, e.key ≠ k) :
    checkCache cache k now = (none, cache) := by
  unfold checkCache
  cases hf : cache.find? (fun e => e.key == k) with
  | none => rfl
  | some e =>
    have he1 : e ∈ cache := List.mem_of_find?_eq_some hf
    have he2 := List.find?_some hf
    exact absurd (by simpa using he2) (hmiss e he1)

theorem cacheInsert_append (cache : List CacheEntry) (k : String)
    (r : JsonObj) (t : Nat) (hmiss : ∀ e ∈ cache, e.key ≠ k) :
    cacheInsert cache k r t = cache ++ [⟨k, r, t⟩] := by
  induction cache with
  | nil => rfl
  | cons e rest ih =>
    unfold cacheInsert
    rw [if_neg (hmiss e (List.mem_cons_self e rest))]
    rw [ih (fun e' he' => hmiss e' (List.mem_cons_of_mem e he'))]
    rfl

theorem setCache_small (cache : List CacheEntry) (k : String) (r : JsonObj)
    (t : Nat) (hmiss : ∀ e ∈ cache, e.key ≠ k)
    (hsize : cache.length < 1000) :
    setCache cache k r t = cache ++ [⟨k, r, t⟩] := by
  unfold setCache
  rw [cacheInsert_append cache k r t hmiss]
  rw [if_neg (by simp; omega)]

theorem find?_append_singleton (cache : List CacheEntry) (k : String)
    (r : JsonObj) (t : Nat) (hmiss : ∀ e ∈ cache, e.key ≠ k) :
    (cache ++ [(⟨k, r, t⟩ : CacheEntry)]).find? (fun e => e.key == k) =
      some ⟨k, r, t⟩ := by
  induction cache with
  | nil => simp [List.find?]
  | cons e rest ih =>
    rw [List.cons_append, List.find?]
    rw [show ((e.key == k) = false) from
      beq_eq_false_iff_ne.mpr (hmiss e (List.mem_cons_self e rest))]
    exact ih (fun e' he' => hmiss e' (List.mem_cons_of_mem e he'))

theorem checkCache_append_hit (cache : List CacheEntry) (k : String)
    (r : JsonObj) (t1 t2 : Nat) (hmiss : ∀ e ∈ cache, e.key ≠ k)
    (hfresh : t2 - t1 < cacheTTL) :
    checkCache (cache ++ [⟨k, r, t1⟩]) k t2 =
      (some r, cache ++ [⟨k, r, t1⟩]) := by
  unfold checkCache
  rw [find?_append_singleton cache k r t1 hmiss]
  dsimp only
  rw [if_pos hfresh]

theorem assocSet_lookup_id {β : Type} (m : List (String × β)) (k : String)
    (v : β) (h : m.lookup k = some v) : assocSet m k v = m := by
  induction m with
  | nil => simp [List.lookup] at h
  | cons e rest ih =>
    cases e with
    | mk k' v' =>
      by_cases hk : k' = k
      · subst hk
        rw [List.lookup] at h
        rw [show (k' == k') = true from beq_self_eq_true k'] at h
        unfold assocSet
        rw [if_pos rfl]
        cases h
        rfl
      · rw [List.lookup] at h
        rw [show (k == k') = false from
          beq_eq_false_iff_ne.mpr (Ne.symm hk)] at h
        unfold assocSet
        rw [if_neg hk, ih h]

/-- The eviction pass of `_set_cache`: on a cache with distinct keys and
more than 1000 entries, filtering out the keys of the first 100 entries of
the `stored_at`-sorted order removes exactly 100 entries, all of whose
timestamps are bounded by every surviving entry's timestamp. -/
theorem evict_spec (c : List CacheEntry)
    (hnd : (c.map (fun e => e.key)).Nodup) (hlen : c.length > 1000) :
    ((c.filter (fun e =>
        !((((sortByStoredAt c).take 100).map (fun e => e.key)).contains
          e.key))).length + 100 = c.length) ∧
    (∀ e ∈ c, e ∉ c.filter (fun e =>
        !((((sortByStoredAt c).take 100).map (fun e => e.key)).contains
          e.key)) →
      ∀ e' ∈ c.filter (fun e =>
        !((((sortByStoredAt c).take 100).map (fun e => e.key)).contains
          e.key)),
      e.storedAt ≤ e'.storedAt) := by
  have hperm : (sortByStoredAt c).Perm c := List.perm_insertionSort tsLe c
  have hsort : (sortByStoredAt c).Sorted tsLe := List.sorted_insertionSort tsLe c
  have hndS : ((sortByStoredAt c).map (fun e => e.key)).Nodup :=
    ((hperm.map (fun e => e.key)).nodup_iff).mpr hnd
  have hsplit : (sortByStoredAt c).take 100 ++ (sortByStoredAt c).drop 100 =
      sortByStoredAt c := List.take_append_drop 100 (sortByStoredAt c)
  have hlenS : (sortByStoredAt c).length = c.length := hperm.length_eq
  -- key disjointness between the kept and evicted halves
  have hdisj : ∀ e ∈ (sortByStoredAt c).drop 100,
      e.key ∉ (((sortByStoredAt c).take 100).map (fun e => e.key)) := by
    intro e he hmem
    have hndsplit := hndS
    rw [← hsplit, List.map_append] at hndsplit
    obtain ⟨-, -, hdis⟩ := List.nodup_append.mp hndsplit
    exact hdis hmem (List.mem_map_of_mem (fun e => e.key) he)
  -- the filter keeps exactly the dropped half of the sorted order
  have hfilterS : (sortByStoredAt c).filter (fun e =>
      !((((sortByStoredAt c).take 100).map (fun e => e.key)).contains
        e.key)) = (sortByStoredAt c).drop 100 := by
    have h1 : ((sortByStoredAt c).take 100).filter (fun e =>
        !((((sortByStoredAt c).take 100).map (fun e => e.key)).contains
          e.key)) = [] := by
      rw [List.filter_eq_nil_iff]
      intro e he
      simp only [Bool.not_eq_true', Bool.not_eq_false]
      exact List.elem_eq_true_of_mem (List.mem_map_of_mem (fun e => e.key) he)
    have h2 : ((sortByStoredAt c).drop 100).filter (fun e =>
        !((((sortByStoredAt c).take 100).map (fun e => e.key)).contains
          e.key)) = (sortByStoredAt c).drop 100 := by
      rw [List.filter_eq_self]
      intro e he
      simp only [Bool.not_eq_true']
      exact (Bool.not_eq_true _).mp
        (fun hcontains => hdisj e he (List.mem_of_elem_eq_true hcontains))
    have h0 := congrArg (fun l => l.filter (fun e =>
      !((((sortByStoredAt c).take 100).map (fun e => e.key)).contains
        e.key))) hsplit.symm
    dsimp only at h0
    rw [List.filter_append, h1, h2, List.nil_append] at h0
    exact h0
  have hpermFilter : (c.filter (fun e =>
      !((((sortByStoredAt c).take 100).map (fun e => e.key)).contains
        e.key))).Perm ((sortByStoredAt c).drop 100) := by
    rw [← hfilterS]
    exact (hperm.filter _).symm
  constructor
  · rw [hpermFilter.length_eq, List.length_drop, hlenS]
    omega
  · intro e he hnotin e' he'
    -- e is one of the evicted entries, hence in the sorted take
    have heS : e ∈ sortByStoredAt c := hperm.mem_iff.mpr he
    have hkey : e.key ∈ (((sortByStoredAt c).take 100).map (fun e => e.key)) := by
      by_contra hk
      exact hnotin (List.mem_filter.mpr ⟨he, by
        simp only [Bool.not_eq_true']
        exact (Bool.not_eq_true _).mp
          (fun hcontains => hk (List.mem_of_elem_eq_true hcontains))⟩)
    obtain ⟨x, hxmem, hxkey⟩ := List.mem_map.mp hkey
    have hxS : x ∈ sortByStoredAt c :=
      List.mem_of_mem_take hxmem
    have hex : e = x :=
      List.inj_on_of_nodup_map hndS heS hxS (by simpa using hxkey.symm)
    have heTake : e ∈ (sortByStoredAt c).take 100 := hex ▸ hxmem
    -- e' is one of the kept entries, hence in the sorted drop
    have he'S : e' ∈ (sortByStoredAt c).drop 100 := hpermFilter.mem_iff.mp he'
    -- sortedness across the take/drop boundary
    have hpair : ∀ a ∈ (sortByStoredAt c).take 100,
        ∀ b ∈ (sortByStoredAt c).drop 100, tsLe a b := by
      have := hsort
      rw [List.Sorted, ← hsplit, List.pairwise_append] at this
      exact this.2.2
    exact hpair e heTake e' he'S

/-- A fresh cached `execute_tool` call with a 2xx outcome: one round-trip,
success bookkeeping, and the result appended to the cache. -/
theorem executeTool_success_fresh (oracle : Nat → BackendOutcome)
    (times : Nat → Nat) (gw : Gateway) (server tool : String)
    (params : JsonObj) (r : JsonObj) (lat : Nat)
    (hsrv : server ∈ gw.servers)
    (hcb : (gw.breakerOf server).state = .closed)
    (hmiss : ∀ e ∈ gw.responseCache, e.key ≠ getCacheKey server tool params)
    (hsize : gw.responseCache.length < 1000)
    (horc : oracle 0 = .success r lat) :
    executeTool oracle times gw server tool params true 0 =
      { res := .ok r
        gw := { servers := gw.servers
                breakers := assocSet
                  (assocSet gw.breakers server (gw.breakerOf server)) server
                  ((gw.breakerOf server).recordSuccess (times 0))
                metrics := assocSet gw.metrics server
                  { gw.metricsOf server with
                    totalRequests := (gw.metricsOf server).totalRequests + 1
                    successfulRequests :=
                      (gw.metricsOf server).successfulRequests + 1
                    totalLatencyMs :=
                      (gw.metricsOf server).totalLatencyMs + lat
                    lastRequestTime := some (times 0) }
                responseCache := gw.responseCache ++
                  [⟨getCacheKey server tool params, r, times 0⟩] }
        backendCalls := 1 } := by
  unfold executeTool executeToolAux
  rw [if_neg (not_not_intro hsrv)]
  dsimp only
  rw [canExecute_closed _ _ hcb]
  simp only [Bool.not_true, Bool.false_eq_true, if_false, if_true]
  rw [checkCache_miss _ _ _ hmiss]
  dsimp only
  rw [horc]
  dsimp only
  rw [breakerOf_mkSet]
  rw [setCache_small _ _ _ _ hmiss hsize]
  rfl

/-- A cached `execute_tool` call whose probe hits a fresh non-empty entry:
the stored result is returned with no round-trip, and only the breaker
entry is re-stored through the gate. -/
theorem executeTool_cache_hit (oracle : Nat → BackendOutcome)
    (times : Nat → Nat) (gw : Gateway) (server tool : String)
    (params : JsonObj) (r : JsonObj)
    (hsrv : server ∈ gw.servers)
    (hgate : ((gw.breakerOf server).canExecute (times 0)).1 = true)
    (hhit : (checkCache gw.responseCache (getCacheKey server tool params)
      (times 0)).1 = some r)
    (hr : r ≠ []) :
    executeTool oracle times gw server tool params true 0 =
      { res := .ok r
        gw := { servers := gw.servers
                breakers := assocSet gw.breakers server
                  ((gw.breakerOf server).canExecute (times 0)).2
                metrics := gw.metrics
                responseCache := gw.responseCache }
        backendCalls := 0 } := by
  unfold executeTool executeToolAux
  rw [if_neg (not_not_intro hsrv)]
  dsimp only
  rw [hgate]
  simp only [Bool.not_true, Bool.false_eq_true, if_false, if_true]
  rw [hhit]
  try dsimp only
  rw [if_pos hr]
  try dsimp only
  rw [checkCache_hit hhit]

/-- Claim C5 counterexample: the cache-hit test is `if cached:` with Python
truthiness, so a backend result that is an *empty* object is stored but
never served from the cache - two identical calls within the TTL make two
backend round-trips although a fresh entry for the key exists. -/
theorem c5_counterexample :
    (executeTool (fun _ => .success [] 7) (fun _ => 100)
      { servers := ["websearch"] } "websearch" "search"
      [("query", "rust lang")] true 0).backendCalls = 1 ∧
    (executeTool (fun _ => .success [] 9) (fun _ => 150)
      (executeTool (fun _ => .success [] 7) (fun _ => 100)
        { servers := ["websearch"] } "websearch" "search"
        [("query", "rust lang")] true 0).gw
      "websearch" "search" [("query", "rust lang")] true 0).backendCalls =
      1 := by
  refine ⟨by decide, by decide⟩

/-- C5 (amended): two cached `execute` calls with the same backend and tool
and params equal up to JSON key order, made within `ttl` seconds, perform
exactly one backend round-trip *provided the first result is non-empty*
(Python truthiness; an empty-object result is re-fetched, see the
counterexample), the second call returning the stored result and leaving
the gateway state untouched; and when an insertion pushes the cache above
1000 entries, exactly the 100 entries with the oldest `stored_at`
timestamps are evicted. -/
theorem c5_cache_amended :
    (∀ (gw : Gateway) (server tool : String) (p1 p2 r : JsonObj) (lat : Nat)
       (oracle1 oracle2 : Nat → BackendOutcome) (t1 t2 : Nat),
      server ∈ gw.servers →
      (gw.breakerOf server).state = .closed →
      (∀ e ∈ gw.responseCache, e.key ≠ getCacheKey server tool p1) →
      gw.responseCache.length < 1000 →
      oracle1 0 = .success r lat →
      r ≠ [] →
      p2.Perm p1 →
      (p1.map Prod.fst).Nodup →
      t2 - t1 < cacheTTL →
      (executeTool oracle1 (fun _ => t1) gw server tool p1 true 0).res =
        .ok r ∧
      (executeTool oracle1 (fun _ => t1) gw server tool p1 true
        0).backendCalls = 1 ∧
      (executeTool oracle2 (fun _ => t2)
        (executeTool oracle1 (fun _ => t1) gw server tool p1 true 0).gw
        server tool p2 true 0).res = .ok r ∧
      (executeTool oracle2 (fun _ => t2)
        (executeTool oracle1 (fun _ => t1) gw server tool p1 true 0).gw
        server tool p2 true 0).backendCalls = 0 ∧
      (executeTool oracle2 (fun _ => t2)
        (executeTool oracle1 (fun _ => t1) gw server tool p1 true 0).gw
        server tool p2 true 0).gw =
        (executeTool oracle1 (fun _ => t1) gw server tool p1 true 0).gw) ∧
    (∀ (cache : List CacheEntry) (key : String) (result : JsonObj)
       (now : Nat),
      ((cacheInsert cache key result now).map (fun e => e.key)).Nodup →
      (cacheInsert cache key result now).length > 1000 →
      (setCache cache key result now).length + 100 =
        (cacheInsert cache key result now).length ∧
      (∀ e ∈ cacheInsert cache key result now,
        e ∉ setCache cache key result now →
        ∀ e' ∈ setCache cache key result now,
        e.storedAt ≤ e'.storedAt)) := by
  constructor
  · intro gw server tool p1 p2 r lat oracle1 oracle2 t1 t2 hsrv hcb hmiss
      hsize horc hr hperm hnd hfresh
    have h1 := executeTool_success_fresh oracle1 (fun _ => t1) gw server tool
      p1 r lat hsrv hcb hmiss hsize horc
    set K := getCacheKey server tool p1 with hK
    set gw1 := (executeTool oracle1 (fun _ => t1) gw server tool p1 true
      0).gw with hgw1
    have hgw1eq : gw1 =
        { servers := gw.servers
          breakers := assocSet
            (assocSet gw.breakers server (gw.breakerOf server)) server
            ((gw.breakerOf server).recordSuccess t1)
          metrics := assocSet gw.metrics server
            { gw.metricsOf server with
              totalRequests := (gw.metricsOf server).totalRequests + 1
              successfulRequests :=
                (gw.metricsOf server).successfulRequests + 1
              totalLatencyMs := (gw.metricsOf server).totalLatencyMs + lat
              lastRequestTime := some t1 }
          responseCache := gw.responseCache ++ [⟨K, r, t1⟩] } := by
      rw [hgw1, h1]
    have hcb1 : gw1.breakerOf server =
        (gw.breakerOf server).recordSuccess t1 := by
      rw [hgw1eq]
      exact breakerOf_mkSet _ _ _ _ _ _
    have hcb1c : (gw1.breakerOf server).state = .closed := by
      rw [hcb1]
      rfl
    have hkey2 : getCacheKey server tool p2 = K :=
      getCacheKey_perm server tool p1 p2 hperm hnd
    have hhit2 : (checkCache gw1.responseCache (getCacheKey server tool p2)
        t2).1 = some r := by
      rw [hkey2, hgw1eq]
      rw [checkCache_append_hit gw.responseCache K r t1 t2 hmiss hfresh]
    have h2 := executeTool_cache_hit oracle2 (fun _ => t2) gw1 server tool
      p2 r (by rw [hgw1eq]; exact hsrv)
      (by rw [canExecute_closed _ _ hcb1c])
      hhit2 hr
    refine ⟨by rw [h1], by rw [h1], by rw [h2], by rw [h2], ?_⟩
    rw [h2]
    dsimp only
    rw [canExecute_closed _ _ hcb1c]
    have hlk : gw1.breakers.lookup server = some (gw1.breakerOf server) := by
      rw [hcb1, hgw1eq]
      exact lookup_assocSet_self _ _ _
    rw [assocSet_lookup_id gw1.breakers server (gw1.breakerOf server) hlk]
  · intro cache key result now hnd hlen
    have h := evict_spec (cacheInsert cache key result now) hnd hlen
    have hset : setCache cache key result now =
        (cacheInsert cache key result now).filter (fun e =>
          !((((sortByStoredAt (cacheInsert cache key result now)).take
            100).map (fun e => e.key)).contains e.key)) := by
      unfold setCache
      rw [if_pos hlen]
    rw [hset]
    exact h

set_option maxRecDepth 10000 in
/-- Witness for `c5_cache_amended`: a concrete replayed call pair with the
params reordered, and the eviction pass on a 1002-entry cache. -/
theorem c5_cache_amended_witness :
    ((executeTool (fun _ => .success [("x", "y")] 7) (fun _ => 100)
        { servers := ["websearch"] } "websearch" "search"
        [("a", "1"), ("b", "2")] true 0).res = .ok [("x", "y")] ∧
      (executeTool (fun _ => .success [("x", "y")] 7) (fun _ => 100)
        { servers := ["websearch"] } "websearch" "search"
        [("a", "1"), ("b", "2")] true 0).backendCalls = 1 ∧
      (executeTool (fun _ => .exn "X" "unused") (fun _ => 150)
        (executeTool (fun _ => .success [("x", "y")] 7) (fun _ => 100)
          { servers := ["websearch"] } "websearch" "search"
          [("a", "1"), ("b", "2")] true 0).gw
        "websearch" "search" [("b", "2"), ("a", "1")] true 0).res =
        .ok [("x", "y")] ∧
      (executeTool (fun _ => .exn "X" "unused") (fun _ => 150)
        (executeTool (fun _ => .success [("x", "y")] 7) (fun _ => 100)
          { servers := ["websearch"] } "websearch" "search"
          [("a", "1"), ("b", "2")] true 0).gw
        "websearch" "search" [("b", "2"), ("a", "1")] true 0).backendCalls =
        0) ∧
    (((cacheInsert exBigCache exBigKey [("v", "1")] 2000).map
        (fun e => e.key)).Nodup ∧
      (cacheInsert exBigCache exBigKey [("v", "1")] 2000).length > 1000 ∧
      (setCache exBigCache exBigKey [("v", "1")] 2000).length + 100 =
        (cacheInsert exBigCache exBigKey [("v", "1")] 2000).length) := by
  have hinj : Function.Injective
      (fun i : Nat => String.mk (List.replicate i 'a')) := by
    intro i j h
    have h2 := congrArg (fun s : String => s.data.length) h
    simpa using h2
  have hfreshBig : ∀ e ∈ exBigCache, e.key ≠ exBigKey := by
    intro e he
    unfold exBigCache at he
    obtain ⟨i, hi, rfl⟩ := List.mem_map.mp he
    intro hk
    have hi2 := hinj hk
    rw [List.mem_range] at hi
    omega
  have hkeys : (cacheInsert exBigCache exBigKey [("v", "1")] 2000).map
      (fun e => e.key) =
      (List.range 1002).map (fun i => String.mk (List.replicate i 'a')) := by
    rw [cacheInsert_append _ _ _ _ hfreshBig, List.map_append]
    unfold exBigCache exBigKey
    rw [List.map_map]
    rw [show (1002 : Nat) = 1001 + 1 from rfl, List.range_succ,
      List.map_append]
    rw [show ((fun (e : CacheEntry) => e.key) ∘ (fun i : Nat =>
      (⟨String.mk (List.replicate i 'a'), [("v", "1")], i⟩ : CacheEntry))) =
      (fun i : Nat => String.mk (List.replicate i 'a')) from rfl]
    rfl
  have hnd : ((cacheInsert exBigCache exBigKey [("v", "1")] 2000).map
      (fun e => e.key)).Nodup := by
    rw [hkeys]
    exact (List.nodup_range 1002).map hinj
  have hlen : (cacheInsert exBigCache exBigKey [("v", "1")] 2000).length >
      1000 := by
    rw [cacheInsert_append _ _ _ _ hfreshBig]
    unfold exBigCache
    simp
  constructor
  · have h := c5_cache_amended.1 { servers := ["websearch"] } "websearch"
      "search" [("a", "1"), ("b", "2")] [("b", "2"), ("a", "1")]
      [("x", "y")] 7 (fun _ => .success [("x", "y")] 7)
      (fun _ => .exn "X" "unused") 100 150 (by decide) (by decide)
      (by decide) (by decide) rfl (by decide) (by decide) (by decide)
      (by decide)
    exact ⟨h.1, h.2.1, h.2.2.1, h.2.2.2.1⟩
  · exact ⟨hnd, hlen,
      (c5_cache_amended.2 exBigCache exBigKey [("v", "1")] 2000 hnd hlen).1⟩

/-! ## C1 - execution layering -/

theorem graphAt_lt_length (p : ExecutionPlan) (i d : Nat)
    (hd : d ∈ graphAt (getDependencyGraph p) i) : d < p.agents.length := by
  unfold graphAt getDependencyGraph at hd
  by_cases hi : i < p.agents.length
  · rw [List.getD_eq_getElem?_getD, List.getElem?_map,
      List.getElem?_range hi] at hd
    simp only [Option.map_some', Option.getD_some, List.mem_map,
      List.mem_filter, decide_eq_true_eq] at hd
    obtain ⟨d', ⟨-, hge, hlt, -⟩, rfl⟩ := hd
    omega
  · rw [List.getD_eq_default] at hd
    · exact absurd hd (List.not_mem_nil d)
    · simpa using hi

theorem graphAt_out_of_range (p : ExecutionPlan) (i : Nat)
    (hi : p.agents.length ≤ i) : graphAt (getDependencyGraph p) i = [] := by
  unfold graphAt getDependencyGraph
  rw [List.getD_eq_default]
  simpa using hi

theorem exists_min_of_ne_nil : ∀ (l : List Nat), l ≠ [] →
    ∃ m ∈ l, ∀ x ∈ l, m ≤ x := by
  intro l
  induction l with
  | nil => intro h; exact absurd rfl h
  | cons a rest ih =>
    intro _
    by_cases hr : rest = []
    · subst hr
      refine ⟨a, List.mem_cons_self a [], ?_⟩
      intro x hx
      simp only [List.mem_singleton] at hx
      omega
    · obtain ⟨m, hm, hmin⟩ := ih hr
      rcases Nat.le_total a m with ham | hma
      · refine ⟨a, List.mem_cons_self a rest, ?_⟩
        intro x hx
        rcases List.mem_cons.mp hx with rfl | hx
        · exact Nat.le_refl x
        · exact Nat.le_trans ham (hmin x hx)
      · refine ⟨m, List.mem_cons_of_mem a hm, ?_⟩
        intro x hx
        rcases List.mem_cons.mp hx with rfl | hx
        · exact hma
        · exact hmin x hx

/-- Specification of the layer-removal loop: with duplicate-free state, it
deletes the layer nodes from `remaining` and keeps the in-degree of every
survivor equal to its number of dependencies still in `remaining`. -/
theorem removeLayer_spec (graph : List (List Nat))
    (hgnd : ∀ i, (graphAt graph i).Nodup) :
    ∀ (nodes remaining : List Nat) (inDeg : Nat → Nat),
    remaining.Nodup → nodes.Nodup → (∀ x ∈ nodes, x ∈ remaining) →
    (∀ i ∈ remaining, inDeg i = ((graphAt graph i).filter
      (fun d => decide (d ∈ remaining))).length) →
    (removeLayer graph nodes remaining inDeg).1 =
      remaining.filter (fun i => decide (i ∉ nodes)) ∧
    (∀ i ∈ (removeLayer graph nodes remaining inDeg).1,
      (removeLayer graph nodes remaining inDeg).2 i =
        ((graphAt graph i).filter
          (fun d => decide (d ∈ (removeLayer graph nodes remaining
            inDeg).1))).length) := by
  intro nodes
  induction nodes with
  | nil =>
    intro remaining inDeg hrnd _ _ hdeg
    constructor
    · show remaining = remaining.filter (fun i => decide (i ∉ ([] : List Nat)))
      exact (List.filter_eq_self.mpr (fun a _ => by simp)).symm
    · intro i hi
      exact hdeg i hi
  | cons node rest ih =>
    intro remaining inDeg hrnd hnnd hsub hdeg
    have hnodeR : node ∈ remaining := hsub node (List.mem_cons_self _ _)
    have hnodeRest : node ∉ rest := (List.nodup_cons.mp hnnd).1
    have herase : remaining.erase node =
        remaining.filter (fun i => decide (i ≠ node)) := by
      rw [List.Nodup.erase_eq_filter hrnd]
      apply List.filter_congr
      intro a _
      by_cases h : a = node
      · subst h; simp
      · simp [h, bne_iff_ne, Ne, h]
    have hmem' : ∀ d, d ∈ remaining.erase node ↔
        (d ∈ remaining ∧ d ≠ node) := by
      intro d
      rw [herase, List.mem_filter]
      simp
    have hfiltereq : ∀ i, (graphAt graph i).filter
        (fun d => decide (d ∈ remaining.erase node)) =
        ((graphAt graph i).filter (fun d => decide (d ∈ remaining))).erase
          node := by
      intro i
      have hmnd : ((graphAt graph i).filter
          (fun d => decide (d ∈ remaining))).Nodup := (hgnd i).filter _
      rw [List.Nodup.erase_eq_filter hmnd, List.filter_filter]
      apply List.filter_congr
      intro d _
      rw [show (decide (d ∈ remaining.erase node)) =
        decide (d ∈ remaining ∧ d ≠ node) from
        decide_eq_decide.mpr (hmem' d)]
      rw [Bool.decide_and]
      rw [show (decide (d ≠ node)) = (d != node) from by
        by_cases h : d = node
        · subst h; simp
        · simp [h, bne_iff_ne, Ne, h]]
      rw [Bool.and_comm]
  -- the in-degree update matches the shrunken remaining set
    have hdeg' : ∀ i ∈ remaining.erase node,
        (fun i => if i ∈ remaining.erase node ∧ node ∈ graphAt graph i
          then inDeg i - 1 else inDeg i) i =
        ((graphAt graph i).filter
          (fun d => decide (d ∈ remaining.erase node))).length := by
      intro i hi
      have hiR : i ∈ remaining := ((hmem' i).mp hi).1
      have hmnd : ((graphAt graph i).filter
          (fun d => decide (d ∈ remaining))).Nodup := (hgnd i).filter _
      rw [hfiltereq i]
      by_cases hnode : node ∈ graphAt graph i
      · have hnm : node ∈ (graphAt graph i).filter
            (fun d => decide (d ∈ remaining)) :=
          List.mem_filter.mpr ⟨hnode, by simpa using hnodeR⟩
        show (if i ∈ remaining.erase node ∧ node ∈ graphAt graph i
          then inDeg i - 1 else inDeg i) = _
        rw [if_pos ⟨hi, hnode⟩, hdeg i hiR, List.length_erase_of_mem hnm]
      · have hnm : node ∉ (graphAt graph i).filter
            (fun d => decide (d ∈ remaining)) := by
          intro hcon
          exact hnode (List.mem_filter.mp hcon).1
        show (if i ∈ remaining.erase node ∧ node ∈ graphAt graph i
          then inDeg i - 1 else inDeg i) = _
        rw [if_neg (fun hcon => hnode hcon.2), hdeg i hiR,
          List.erase_of_not_mem hnm]
    have hrest_sub : ∀ x ∈ rest, x ∈ remaining.erase node := by
      intro x hx
      refine (hmem' x).mpr ⟨hsub x (List.mem_cons_of_mem node hx), ?_⟩
      intro hcon
      exact hnodeRest (hcon ▸ hx)
    have hstep := ih (remaining.erase node)
      (fun i => if i ∈ remaining.erase node ∧ node ∈ graphAt graph i
        then inDeg i - 1 else inDeg i)
      (hrnd.erase node) (List.nodup_cons.mp hnnd).2 hrest_sub hdeg'
    constructor
    · show (removeLayer graph rest (remaining.erase node)
        (fun i => if i ∈ remaining.erase node ∧ node ∈ graphAt graph i
          then inDeg i - 1 else inDeg i)).1 =
        remaining.filter (fun i => decide (i ∉ node :: rest))
      rw [hstep.1, herase, List.filter_filter]
      apply List.filter_congr
      intro a _
      rw [show (decide (a ∉ node :: rest)) =
        (decide (a ∉ rest) && decide (a ≠ node)) from by
        rw [← Bool.decide_and]
        apply decide_eq_decide.mpr
        constructor
        · intro h
          exact ⟨fun hc => h (List.mem_cons_of_mem node hc),
            fun hc => h (hc ▸ List.mem_cons_self node rest)⟩
        · intro h hc
          rcases List.mem_cons.mp hc with rfl | hc
          · exact h.2 rfl
          · exact h.1 hc]
    · show ∀ i ∈ (removeLayer graph rest (remaining.erase node)
        (fun i => if i ∈ remaining.erase node ∧ node ∈ graphAt graph i
          then inDeg i - 1 else inDeg i)).1, _
      exact hstep.2

theorem contains_true_iff (l : List Nat) (a : Nat) :
    l.contains a = true ↔ a ∈ l :=
  ⟨List.mem_of_elem_eq_true, List.elem_eq_true_of_mem⟩

/-- Main invariant of the Kahn loop: on a duplicate-free, strictly
backward-referencing graph, with in-degrees matching the live dependency
counts and all already-dropped dependencies recorded in `emitted`, the loop
succeeds, its layers enumerate `remaining` exactly once, and every
dependency of a layered index lies in `emitted` or in an earlier layer. -/
theorem kahnLoop_spec (graph : List (List Nat))
    (hgnd : ∀ i, (graphAt graph i).Nodup)
    (hlt : ∀ i, ∀ d ∈ graphAt graph i, d < i) :
    ∀ (fuel : Nat) (remaining : List Nat) (inDeg : Nat → Nat)
      (emitted : List Nat),
    remaining.Nodup → remaining.length ≤ fuel →
    (∀ i ∈ remaining, inDeg i = ((graphAt graph i).filter
      (fun d => decide (d ∈ remaining))).length) →
    (∀ i ∈ remaining, ∀ d ∈ graphAt graph i, d ∉ remaining →
      emitted.contains d = true) →
    ∃ layers, kahnLoop graph fuel remaining inDeg = .ok layers ∧
      List.Perm layers.flatten remaining ∧
      layersOk graph emitted layers = true := by
  intro fuel
  induction fuel with
  | zero =>
    intro remaining inDeg emitted _ hlen _ _
    have hnil : remaining = [] :=
      List.length_eq_zero.mp (Nat.le_zero.mp hlen)
    subst hnil
    exact ⟨[], rfl, List.Perm.refl _, rfl⟩
  | succ fuel ih =>
    intro remaining inDeg emitted hrnd hlen hdeg hclose
    by_cases hemp : remaining.isEmpty = true
    · have hnil : remaining = [] := by simpa [List.isEmpty_iff] using hemp
      subst hnil
      exact ⟨[], rfl, List.Perm.refl _, rfl⟩
    · have hne : remaining ≠ [] := by
        intro hcon
        subst hcon
        exact hemp rfl
      obtain ⟨m, hmR, hmin⟩ := exists_min_of_ne_nil remaining hne
      have hdm : inDeg m = 0 := by
        rw [hdeg m hmR]
        apply List.length_eq_zero.mpr
        rw [List.filter_eq_nil_iff]
        intro d hd
        simp only [decide_eq_true_eq]
        intro hdR
        exact absurd (hlt m d hd) (Nat.not_lt.mpr (hmin d hdR))
      have hmlayer : m ∈ remaining.filter (fun i => inDeg i == 0) :=
        List.mem_filter.mpr ⟨hmR, by simp [hdm]⟩
      have hlayerne : (remaining.filter (fun i => inDeg i == 0)).isEmpty
          = false := by
        cases hl : (remaining.filter (fun i => inDeg i == 0)).isEmpty
        · rfl
        · exfalso
          have hnil : remaining.filter (fun i => inDeg i == 0) = [] := by
            simpa [List.isEmpty_iff] using hl
          rw [hnil] at hmlayer
          exact List.not_mem_nil m hmlayer
      have hspec := removeLayer_spec graph hgnd
        (remaining.filter (fun i => inDeg i == 0)) remaining inDeg
        hrnd (hrnd.filter _) (fun x hx => (List.mem_filter.mp hx).1) hdeg
      have hst1 : (removeLayer graph
          (remaining.filter (fun i => inDeg i == 0)) remaining inDeg).1
          = remaining.filter (fun i => !(inDeg i == 0)) := by
        rw [hspec.1]
        apply List.filter_congr
        intro a ha
        have hiff : a ∈ remaining.filter (fun i => inDeg i == 0) ↔
            (inDeg a == 0) = true :=
          ⟨fun h => (List.mem_filter.mp h).2,
           fun h => List.mem_filter.mpr ⟨ha, h⟩⟩
        cases hz : inDeg a == 0
        · simp [hiff, hz]
        · simp [hiff, hz]
      have hlenlt : (remaining.filter (fun i => !(inDeg i == 0))).length
          < remaining.length :=
        List.length_filter_lt_length_iff_exists.mpr
          ⟨m, hmR, by simp [hdm]⟩
      have hclose2 : ∀ i ∈ remaining.filter (fun i => !(inDeg i == 0)),
          ∀ d ∈ graphAt graph i,
          d ∉ remaining.filter (fun i => !(inDeg i == 0)) →
          (emitted ++ remaining.filter (fun i => inDeg i == 0)).contains d
            = true := by
        intro i hi d hd hdn
        have hiR : i ∈ remaining := (List.mem_filter.mp hi).1
        by_cases hdR : d ∈ remaining
        · by_cases hz : (inDeg d == 0) = true
          · exact (contains_true_iff _ _).mpr (List.mem_append.mpr
              (Or.inr (List.mem_filter.mpr ⟨hdR, hz⟩)))
          · exfalso
            refine hdn (List.mem_filter.mpr ⟨hdR, ?_⟩)
            rw [Bool.not_eq_true']
            exact Bool.eq_false_iff.mpr hz
        · exact (contains_true_iff _ _).mpr (List.mem_append.mpr
            (Or.inl ((contains_true_iff _ _).mp (hclose i hiR d hd hdR))))
      obtain ⟨restL, heq, hperm, hok⟩ := ih
        (removeLayer graph
          (remaining.filter (fun i => inDeg i == 0)) remaining inDeg).1
        (removeLayer graph
          (remaining.filter (fun i => inDeg i == 0)) remaining inDeg).2
        (emitted ++ remaining.filter (fun i => inDeg i == 0))
        (by rw [hst1]; exact hrnd.filter _)
        (by rw [hst1]; omega)
        hspec.2
        (by rw [hst1]; exact hclose2)
      refine ⟨remaining.filter (fun i => inDeg i == 0) :: restL, ?_, ?_, ?_⟩
      · rw [kahnLoop]
        rw [if_neg hemp]
        dsimp only
        rw [if_neg (by
          intro hcon
          rw [hlayerne] at hcon
          exact Bool.false_ne_true hcon)]
        rw [heq]
      · rw [List.flatten_cons]
        rw [hst1] at hperm
        exact List.Perm.trans (List.Perm.append_left _ hperm)
          (List.filter_append_perm _ remaining)
      · rw [layersOk, Bool.and_eq_true]
        constructor
        · rw [List.all_eq_true]
          intro i hi
          rw [List.all_eq_true]
          intro d hd
          have hiR : i ∈ remaining := (List.mem_filter.mp hi).1
          have hiz : inDeg i = 0 := by
            simpa using (List.mem_filter.mp hi).2
          have hfz : (graphAt graph i).filter
              (fun d => decide (d ∈ remaining)) = [] := by
            apply List.length_eq_zero.mp
            rw [← hdeg i hiR]
            exact hiz
          have hdnR : d ∉ remaining := by
            intro hcon
            have hmem : d ∈ (graphAt graph i).filter
                (fun d => decide (d ∈ remaining)) :=
              List.mem_filter.mpr ⟨hd, by simpa using hcon⟩
            rw [hfz] at hmem
            exact List.not_mem_nil d hmem
          exact hclose i hiR d hd hdnR
        · exact hok

/-- C1: counterexample.  In the plan [researcher (no deps), analyzer dep [2],
analyzer dep [1]] the first layer [0] is emitted, then the 1-2 cycle is
detected and the early return discards the emitted layer: the result is
[[1], [2]], which is neither the fully sequential layering [[0], [1], [2]]
nor a covering of the 3-element index set - index 0 is missing. -/
theorem c1_counterexample :
    getExecutionLayers exPlanC1 = [[1], [2]] ∧
    exPlanC1.agents.length = 3 ∧
    (0 : Nat) ∉ (getExecutionLayers exPlanC1).flatten := by
  decide

/-- C1 (amended): for a plan whose filtered dependency graph is
duplicate-free and strictly backward (every kept dependency of agent `i` is
smaller than `i`, as validation ensures), `get_execution_layers` returns a
partition of the index set: the concatenation of the layers is a permutation
of `{0, ..., n-1}` and every dependency of an index placed in some layer
lies in an earlier layer. -/
theorem c1_layers_amended (p : ExecutionPlan)
    (hnd : ∀ i < p.agents.length, (graphAt (getDependencyGraph p) i).Nodup)
    (hback : ∀ i < p.agents.length,
      ∀ d ∈ graphAt (getDependencyGraph p) i, d < i) :
    List.Perm (getExecutionLayers p).flatten
      (List.range p.agents.length) ∧
    layersOk (getDependencyGraph p) [] (getExecutionLayers p) = true := by
  have hnd2 : ∀ i, (graphAt (getDependencyGraph p) i).Nodup := by
    intro i
    by_cases hi : i < p.agents.length
    · exact hnd i hi
    · rw [graphAt_out_of_range p i (Nat.le_of_not_lt hi)]
      exact List.nodup_nil
  have hback2 : ∀ i, ∀ d ∈ graphAt (getDependencyGraph p) i, d < i := by
    intro i
    by_cases hi : i < p.agents.length
    · exact hback i hi
    · rw [graphAt_out_of_range p i (Nat.le_of_not_lt hi)]
      intro d hd
      exact absurd hd (List.not_mem_nil d)
  have hdeg0 : ∀ i ∈ List.range p.agents.length,
      (graphAt (getDependencyGraph p) i).length =
      ((graphAt (getDependencyGraph p) i).filter
        (fun d => decide (d ∈ List.range p.agents.length))).length := by
    intro i _
    congr 1
    symm
    apply List.filter_eq_self.mpr
    intro d hd
    simp only [decide_eq_true_eq, List.mem_range]
    exact graphAt_lt_length p i d hd
  obtain ⟨layers, heq, hperm, hok⟩ := kahnLoop_spec (getDependencyGraph p)
    hnd2 hback2 p.agents.length (List.range p.agents.length)
    (fun i => (graphAt (getDependencyGraph p) i).length) []
    (List.nodup_range _) (by rw [List.length_range])
    hdeg0
    (fun i _ d hd hdn =>
      absurd (List.mem_range.mpr (graphAt_lt_length p i d hd)) hdn)
  have hlay : getExecutionLayers p = layers := by
    unfold getExecutionLayers
    dsimp only
    rw [heq]
  rw [hlay]
  exact ⟨hperm, hok⟩

theorem c1_layers_amended_witness :
    (∀ i < exPlanC1W.agents.length,
      (graphAt (getDependencyGraph exPlanC1W) i).Nodup) ∧
    (∀ i < exPlanC1W.agents.length,
      ∀ d ∈ graphAt (getDependencyGraph exPlanC1W) i, d < i) ∧
    (List.Perm (getExecutionLayers exPlanC1W).flatten
      (List.range exPlanC1W.agents.length) ∧
    layersOk (getDependencyGraph exPlanC1W) [] (getExecutionLayers exPlanC1W)
      = true) :=
  ⟨by decide, by decide,
    c1_layers_amended exPlanC1W (by decide) (by decide)⟩

/-! ## C2 - logical validation and repair -/

/-- Claim C2 counterexample: the plan `[researcher depending on 1, analyzer]`
has a forward dependency, so validation rejects it; `_fix_plan_logic` finds
no standalone synthesizer to lift and returns the plan unchanged, and the
source uses that result without re-validation or fallback - the forward
dependency survives processing. -/
theorem c2_counterexample :
    processPlanLogic
        [ { role := "researcher", task := "r", dependsOn := [1] },
          { role := "analyzer", task := "a" } ] =
      [ { role := "researcher", task := "r", dependsOn := [1] },
        { role := "analyzer", task := "a" } ] ∧
    ((processPlanLogic
        [ { role := "researcher", task := "r", dependsOn := [1] },
          { role := "analyzer", task := "a" } ])[0]?.map Agent.dependsOn) =
      some [1] := by
  refine ⟨by decide, by decide⟩

/-- C2 (amended): validation rejects any plan in which some `depends_on`
element equals or exceeds its host agent's index; a rejected plan is
reshaped by `_fix_plan_logic`, but the reshaped plan is used *without
re-validation and without fallback*.  When the plan (after the synthesizer
dependency fill-in) passes validation, the no-forward/self-dependency
invariant holds after processing; when it fails, the reshaped plan is used
as-is and can still contain a forward dependency. -/
theorem c2_validation_amended (agents : List Agent) :
    (∀ (i : Nat) (a : Agent), agents[i]? = some a →
      ∀ d ∈ a.dependsOn, (i : Int) ≤ d → validatePlanLogic agents = false) ∧
    (validatePlanLogic (fixSynthesizerDependencies agents) = true →
      processPlanLogic agents = fixSynthesizerDependencies agents ∧
      ∀ (i : Nat) (a : Agent), (processPlanLogic agents)[i]? = some a →
        ∀ d ∈ a.dependsOn, d < (i : Int)) := by
  constructor
  · intro i a ha d hd hle
    unfold validatePlanLogic
    have h2 : (agents.enum.all (fun p => p.2.dependsOn.all (fun d =>
        !(d == (p.1 : Int)) && !(decide (d ≥ (p.1 : Int)))))) = false := by
      rw [List.all_eq_false]
      refine ⟨(i, a), mem_enum_of_getElem? ha, ?_⟩
      rw [Bool.not_eq_true, List.all_eq_false]
      exact ⟨d, hd, by simp [hle]⟩
    rw [h2, Bool.and_false]
  · intro hval
    have heq : processPlanLogic agents = fixSynthesizerDependencies agents := by
      unfold processPlanLogic
      rw [if_pos hval]
    refine ⟨heq, ?_⟩
    intro i a ha d hd
    rw [heq] at ha
    have h2 := (Bool.and_eq_true_iff.mp hval).2
    rw [List.all_eq_true] at h2
    have h3 := h2 (i, a) (mem_enum_of_getElem? ha)
    rw [List.all_eq_true] at h3
    have h4 := h3 d hd
    simp only [Bool.and_eq_true, Bool.not_eq_true', beq_eq_false_iff_ne,
      decide_eq_false_iff_not, not_le] at h4
    exact h4.2

/-- Witness for `c2_validation_amended`: a self-dependency at index 0 is
rejected; the plan `[analyzer]` passes validation and keeps the invariant. -/
theorem c2_validation_amended_witness :
    validatePlanLogic
        [ { role := "researcher", task := "t", dependsOn := [0] } ] = false ∧
    (processPlanLogic [ { role := "analyzer", task := "t" } ] =
      fixSynthesizerDependencies [ { role := "analyzer", task := "t" } ] ∧
     ∀ (i : Nat) (a : Agent),
        (processPlanLogic [ { role := "analyzer", task := "t" } ])[i]? =
        some a → ∀ d ∈ a.dependsOn, d < (i : Int)) := by
  constructor
  · exact (c2_validation_amended _).1 0
      { role := "researcher", task := "t", dependsOn := [0] }
      (by decide) 0 (by decide) (by decide)
  · exact (c2_validation_amended _).2 (by decide)

/-- Witness for `c3_synth_fix_amended` at the concrete plan
`[researcher, writer]`. -/
theorem c3_synth_fix_amended_witness :
    ([ { role := "researcher", task := "r" },
       { role := "writer", task := "w" } ] : List Agent)[1]? =
        some { role := "writer", task := "w" } ∧
    (∃ b, (fixSynthesizerDependencies
        [ { role := "researcher", task := "r" },
          { role := "writer", task := "w" } ])[1]? = some b ∧
      b.role = "writer" ∧ b.dependsOn ≠ [] ∧
      (([] : List Int) = [] → b.dependsOn =
        ((List.range 1).filter (fun j =>
          (([ { role := "researcher", task := "r" },
              { role := "writer", task := "w" } ] : List Agent).getD j
            default).role ∉
          (["synthesizer", "writer", "critic"] : List String))).map Int.ofNat) ∧
      (([] : List Int) ≠ [] → b.dependsOn = [])) := by
  refine ⟨by decide, ?_⟩
  exact c3_synth_fix_amended
    [ { role := "researcher", task := "r" }, { role := "writer", task := "w" } ]
    1 { role := "writer", task := "w" } (by decide) (by decide)
    (Or.inr rfl) ⟨0, by decide, by decide⟩

end Magentic
